import Mathlib

/-!
Verification of the streaming session client in `StormeeServiceRN.ts`
(the primary implementation, lines 1-625 of the service file).

Modelling conventions (shallow embedding):
* JavaScript runtime values are the inductive type `Jv`.  JS strings are
  represented by their UTF-8 byte sequences (`List Nat`), so the source's
  `Buffer.from(bytes).toString("utf8")` / `Buffer.from(str, "utf8")` pair is
  the identity on byte lists.  `Uint8Array` is `Jv.u8`, other
  `ArrayBufferView`s are `Jv.view` (carrying their underlying bytes).
* Byte buffers are `List Nat` with every element `< 256`; the JS bitwise
  reads `(b0<<24)|(b1<<16)|(b2<<8)|b3 >>> 0` of the source coincide with the
  Lean `<<<`/`|||` expressions used here on such bytes.
* The offset-based recursion of `parseMsgpack(buf, offset)` is embedded as a
  parser consuming the front of the remaining byte list (offset `o`
  corresponds to `buf.drop o`); JS `subarray` clamps out-of-range bounds
  exactly as `List.take`/`List.drop` do, and the source's entry check
  `offset >= buf.length` corresponds to the remaining list being empty.
* Recursion is driven by a fuel parameter decremented on every call (the
  source recursion terminates because every nested call consumes at least
  the tag byte); the top-level entry point supplies fuel
  `2 * buf.length + 2`, which always suffices because at most two calls are
  made per input byte, so fuel exhaustion (`PErr.fuel`) is unreachable from
  `parseMsgpack`.
-/

/-- A JavaScript runtime value as manipulated by the service.  Strings are
UTF-8 byte sequences; object keys likewise.  `float32`/`float64` carry the
raw IEEE bytes of a float value (used only on the encoder side: the source
parser never constructs them). -/
inductive Jv : Type where
  | undef : Jv
  | null : Jv
  | bool (b : Bool) : Jv
  | num (n : Int) : Jv
  | str (s : List Nat) : Jv
  | u8 (b : List Nat) : Jv
  | view (b : List Nat) : Jv
  | arr (l : List Jv) : Jv
  | obj (fs : List (List Nat × Jv)) : Jv
  | float32 (b : List Nat) : Jv
  | float64 (b : List Nat) : Jv
deriving Repr

/-- Errors raised by the source parser: `oob` is the thrown
`msgpack offset out of bounds`, `badTag t` the thrown
`Unknown msgpack type`.  `fuel` marks exhaustion of the artificial fuel
(unreachable from the top-level entry point). -/
inductive PErr : Type where
  | oob : PErr
  | badTag (t : Nat) : PErr
  | fuel : PErr
deriving DecidableEq, Repr

/-- `buf[offset + i]` of the source, on the remaining byte list:
JS yields `undefined` out of range, which every arithmetic context in the
source (`<<`/`|`) coerces to `0`; reads whose result is returned raw are
outside every claim's hypothesis space. -/
def byteAt (rem : List Nat) (i : Nat) : Nat := rem.getD i 0

/-- Decimal digits (ASCII codes) of a natural number, as produced by the JS
`String()` conversion of a non-negative integer. -/
def decBytes (n : Nat) : List Nat :=
  (Nat.toDigits 10 n).map Char.toNat

/-- JS `String(v)` conversion as used for map keys in the source parser
(`map[String(k.value)] = v.value`). -/
def jsToString : Jv → List Nat
  | .undef => [117, 110, 100, 101, 102, 105, 110, 101, 100]
  | .null => [110, 117, 108, 108]
  | .bool true => [116, 114, 117, 101]
  | .bool false => [102, 97, 108, 115, 101]
  | .num n => if n < 0 then 45 :: decBytes (-n).toNat else decBytes n.toNat
  | .str s => s
  | .u8 b => List.intercalate [44] (b.map (fun x => decBytes x))
  | .view b => List.intercalate [44] (b.map (fun x => decBytes x))
  | .arr l => List.intercalate [44] (l.map (fun v =>
      match v with
      | .undef => ([] : List Nat)
      | .null => []
      | .str s => s
      | .num n => if n < 0 then 45 :: decBytes (-n).toNat else decBytes n.toNat
      | .bool true => [116, 114, 117, 101]
      | .bool false => [102, 97, 108, 115, 101]
      | _ => []))
  | .obj _ => [91, 111, 98, 106, 101, 99, 116, 32, 79, 98, 106, 101, 99, 116, 93]
  | .float32 _ => [48]
  | .float64 _ => [48]

/-- JS object insertion `m[k] = v`: replaces the value of an existing key in
place, otherwise appends the new binding. -/
def insertJs (m : List (List Nat × Jv)) (k : List Nat) (v : Jv) :
    List (List Nat × Jv) :=
  match m with
  | [] => [(k, v)]
  | (k', v') :: rest =>
    if k' = k then (k', v) :: rest else (k', v') :: insertJs rest k v

/-- Parser work items: `one` is a `parseMsgpack` call on the remaining
bytes, `list`/`map` are the element- and entry-collecting loops of the
source's array and map branches (`acc` holds the elements or bindings
collected so far, in source order). -/
inductive PReq : Type where
  | one (rem : List Nat) : PReq
  | list (n : Nat) (acc : List Jv) (rem : List Nat) : PReq
  | map (n : Nat) (acc : List (List Nat × Jv)) (rem : List Nat) : PReq

/-- One step of `parseMsgpack(buf, offset)` (source lines 101-157) on the
tag byte `t` and the remaining bytes, with `recur` standing for the
recursive calls of the source.  Branches appear in source order: positive
fixint, negative fixint, fixmap, fixarray, fixstr, then the tag switch.
Note that the source decodes `0xca`/`0xcb` float payloads as the number `0`
(skipping 4/8 bytes), and clamps string/binary payloads whose declared
length exceeds the remaining buffer (JS `subarray` semantics). -/
def parseOne (recur : PReq → Except PErr (Jv × List Nat))
    (t : Nat) (rest : List Nat) : Except PErr (Jv × List Nat) :=
  if t &&& 0x80 == 0 then .ok (.num t, rest)
  else if t &&& 0xe0 == 0xe0 then .ok (.num ((t : Int) - 256), rest)
  else if t &&& 0xf0 == 0x80 then
    recur (.map (t &&& 0x0f) [] rest)
  else if t &&& 0xf0 == 0x90 then
    recur (.list (t &&& 0x0f) [] rest)
  else if t &&& 0xe0 == 0xa0 then
    let n := t &&& 0x1f
    .ok (.str (rest.take n), rest.drop n)
  else if t == 0xc0 then .ok (.null, rest)
  else if t == 0xc2 then .ok (.bool false, rest)
  else if t == 0xc3 then .ok (.bool true, rest)
  else if t == 0xc4 then
    let n := byteAt rest 0
    .ok (.u8 ((rest.drop 1).take n), (rest.drop 1).drop n)
  else if t == 0xc5 then
    let n := byteAt rest 0 <<< 8 ||| byteAt rest 1
    .ok (.u8 ((rest.drop 2).take n), (rest.drop 2).drop n)
  else if t == 0xc6 then
    let n := byteAt rest 0 <<< 24 ||| byteAt rest 1 <<< 16 |||
             byteAt rest 2 <<< 8 ||| byteAt rest 3
    .ok (.u8 ((rest.drop 4).take n), (rest.drop 4).drop n)
  else if t == 0xca then .ok (.num 0, rest.drop 4)
  else if t == 0xcb then .ok (.num 0, rest.drop 8)
  else if t == 0xcc then .ok (.num (byteAt rest 0), rest.drop 1)
  else if t == 0xcd then
    .ok (.num (byteAt rest 0 <<< 8 ||| byteAt rest 1), rest.drop 2)
  else if t == 0xce then
    .ok (.num (byteAt rest 0 <<< 24 ||| byteAt rest 1 <<< 16 |||
               byteAt rest 2 <<< 8 ||| byteAt rest 3), rest.drop 4)
  else if t == 0xd0 then
    let v := byteAt rest 0
    .ok (.num (if v > 127 then (v : Int) - 256 else v), rest.drop 1)
  else if t == 0xd1 then
    let v := byteAt rest 0 <<< 8 ||| byteAt rest 1
    .ok (.num (if v > 32767 then (v : Int) - 65536 else v), rest.drop 2)
  else if t == 0xd2 then
    let v := byteAt rest 0 <<< 24 ||| byteAt rest 1 <<< 16 |||
             byteAt rest 2 <<< 8 ||| byteAt rest 3
    .ok (.num (if v >= 2147483648 then (v : Int) - 4294967296 else v),
         rest.drop 4)
  else if t == 0xd9 then
    let n := byteAt rest 0
    .ok (.str ((rest.drop 1).take n), (rest.drop 1).drop n)
  else if t == 0xda then
    let n := byteAt rest 0 <<< 8 ||| byteAt rest 1
    .ok (.str ((rest.drop 2).take n), (rest.drop 2).drop n)
  else if t == 0xdb then
    let n := byteAt rest 0 <<< 24 ||| byteAt rest 1 <<< 16 |||
             byteAt rest 2 <<< 8 ||| byteAt rest 3
    .ok (.str ((rest.drop 4).take n), (rest.drop 4).drop n)
  else if t == 0xdc then
    let n := byteAt rest 0 <<< 8 ||| byteAt rest 1
    recur (.list n [] (rest.drop 2))
  else if t == 0xde then
    let n := byteAt rest 0 <<< 8 ||| byteAt rest 1
    recur (.map n [] (rest.drop 2))
  else if t == 0xdf then
    let n := byteAt rest 0 <<< 24 ||| byteAt rest 1 <<< 16 |||
             byteAt rest 2 <<< 8 ||| byteAt rest 3
    recur (.map n [] (rest.drop 4))
  else .error (.badTag t)

/-- The recursion driver: fuel decreases on every call, `one` items are
dispatched to `parseOne`, and `list`/`map` items run the element- and
entry-collecting loops of the source's array and map branches. -/
def parseAux : Nat → PReq → Except PErr (Jv × List Nat)
  | _, .one [] => .error .oob
  | 0, _ => .error .fuel
  | fuel + 1, .one (t :: rest) => parseOne (parseAux fuel) t rest
  | _ + 1, .list 0 acc rem => .ok (.arr acc, rem)
  | fuel + 1, .list (n + 1) acc rem =>
    match parseAux fuel (.one rem) with
    | .error e => .error e
    | .ok (v, rem2) => parseAux fuel (.list n (acc ++ [v]) rem2)
  | _ + 1, .map 0 acc rem => .ok (.obj acc, rem)
  | fuel + 1, .map (n + 1) acc rem =>
    match parseAux fuel (.one rem) with
    | .error e => .error e
    | .ok (k, rem2) =>
      match parseAux fuel (.one rem2) with
      | .error e => .error e
      | .ok (v, rem3) =>
        parseAux fuel (.map n (insertJs acc (jsToString k) v) rem3)

theorem parseAux_one_nil (fuel : Nat) :
    parseAux fuel (.one []) = .error .oob := by
  cases fuel <;> rfl

theorem parseAux_one_cons (fuel t : Nat) (rest : List Nat) :
    parseAux (fuel + 1) (.one (t :: rest)) = parseOne (parseAux fuel) t rest :=
  rfl

theorem parseAux_list_zero (fuel : Nat) (acc : List Jv) (rem : List Nat) :
    parseAux (fuel + 1) (.list 0 acc rem) = .ok (.arr acc, rem) := rfl

theorem parseAux_list_succ (fuel n : Nat) (acc : List Jv) (rem : List Nat) :
    parseAux (fuel + 1) (.list (n + 1) acc rem) =
      match parseAux fuel (.one rem) with
      | .error e => .error e
      | .ok (v, rem2) => parseAux fuel (.list n (acc ++ [v]) rem2) := rfl

theorem parseAux_map_zero (fuel : Nat) (acc : List (List Nat × Jv))
    (rem : List Nat) :
    parseAux (fuel + 1) (.map 0 acc rem) = .ok (.obj acc, rem) := rfl

theorem parseAux_map_succ (fuel n : Nat) (acc : List (List Nat × Jv))
    (rem : List Nat) :
    parseAux (fuel + 1) (.map (n + 1) acc rem) =
      match parseAux fuel (.one rem) with
      | .error e => .error e
      | .ok (k, rem2) =>
        match parseAux fuel (.one rem2) with
        | .error e => .error e
        | .ok (v, rem3) =>
          parseAux fuel (.map n (insertJs acc (jsToString k) v) rem3) := rfl

/-- `parseMsgpack(buf, 0)`: the top-level decode of one inbound binary
message.  The fuel `2 * buf.length + 2` always suffices: a `one` work item
immediately consumes its tag byte and a `list`/`map` step makes at most two
calls before the input shrinks, so at most two units of fuel are spent per
input byte along any call chain. -/
def parseMsgpack (buf : List Nat) : Except PErr (Jv × List Nat) :=
  parseAux (2 * buf.length + 2) (.one buf)

/-- Unrecognized leading type-tag bytes: exactly the byte values that reach
the source switch's `default` case (ext formats `0xc1`, `0xc7`-`0xc9`,
`0xd4`-`0xd8`, 64-bit integers `0xcf`/`0xd3`, and `array32` `0xdd`). -/
def msgpackUnknownTag (t : Nat) : Prop :=
  t = 0xc1 ∨ t = 0xc7 ∨ t = 0xc8 ∨ t = 0xc9 ∨ t = 0xcf ∨ t = 0xd3 ∨
  t = 0xd4 ∨ t = 0xd5 ∨ t = 0xd6 ∨ t = 0xd7 ∨ t = 0xd8 ∨ t = 0xdd

theorem parseMsgpack_cons (t : Nat) (rest : List Nat) :
    parseMsgpack (t :: rest) =
      parseAux (2 * rest.length + 3 + 1) (.one (t :: rest)) := by
  have h : 2 * (t :: rest).length + 2 = 2 * rest.length + 3 + 1 := by
    simp [List.length_cons]; ring
  rw [parseMsgpack, h]

/-- Claim C4 counterexample: the binary-8 envelope `[0xc4, 5]` declares a
5-byte payload but the buffer ends immediately; the source clamps the
`subarray` to the available bytes and returns an empty binary value with no
error, contradicting the claim that a declared binary length exceeding the
remaining buffer raises a format error. -/
theorem parseMsgpack_truncated_bin_returns_value :
    parseMsgpack [0xc4, 5] = .ok (.u8 [], []) := by rfl

/-- Claim C4 (amended): an input whose leading type-tag byte is
unrecognized makes `parseMsgpack` fail with the unknown-type format error
(and the parser signals failures only through its error result, never any
other way); a declared string/binary length exceeding the remaining buffer,
however, is clamped to the available bytes and yields a value. -/
theorem parseMsgpack_unknown_tag_error (t : Nat) (rest : List Nat)
    (h : msgpackUnknownTag t) :
    parseMsgpack (t :: rest) = .error (.badTag t) := by
  rcases h with rfl | rfl | rfl | rfl | rfl | rfl | rfl | rfl | rfl | rfl | rfl | rfl <;>
    rw [parseMsgpack_cons] <;> rfl

/-- Witness for `parseMsgpack_unknown_tag_error` at the unsupported
`uint64` tag `0xcf`. -/
theorem parseMsgpack_unknown_tag_error_witness :
    msgpackUnknownTag 0xcf ∧
      parseMsgpack [0xcf, 0, 0, 0, 0, 0, 0, 0, 7] = .error (.badTag 0xcf) :=
  ⟨by unfold msgpackUnknownTag; decide,
   parseMsgpack_unknown_tag_error 0xcf [0, 0, 0, 0, 0, 0, 0, 7]
    (by unfold msgpackUnknownTag; decide)⟩

/-! ### Reference encoder (spec side)

The spec quantifies the round-trip property over "valid envelope byte
sequences produced by a reference encoder" (§8); the repository contains no
encoder, so the following definitions are the spec-side reference encoder:
minimal-size canonical encodings for every value class of §4.1. -/

/-- Big-endian 2-byte split of a value below `2^16`. -/
def be2 (n : Nat) : List Nat := [n / 256, n % 256]

/-- Big-endian 4-byte split of a value below `2^32`. -/
def be4 (n : Nat) : List Nat :=
  [n / 16777216, n / 65536 % 256, n / 256 % 256, n % 256]

/-- Reference encoding of an integer, using the smallest of the formats the
source parser understands (positive/negative fixint, `uint8/16/32`,
`int8/16/32`). -/
def encodeInt (n : Int) : List Nat :=
  if 0 ≤ n ∧ n ≤ 127 then [n.toNat]
  else if -32 ≤ n ∧ n < 0 then [(n + 256).toNat]
  else if 0 ≤ n ∧ n ≤ 255 then [0xcc, n.toNat]
  else if 0 ≤ n ∧ n ≤ 65535 then 0xcd :: be2 n.toNat
  else if 0 ≤ n ∧ n ≤ 4294967295 then 0xce :: be4 n.toNat
  else if -128 ≤ n ∧ n < 0 then [0xd0, (n + 256).toNat]
  else if -32768 ≤ n ∧ n < 0 then 0xd1 :: be2 (n + 65536).toNat
  else if -2147483648 ≤ n ∧ n < 0 then 0xd2 :: be4 (n + 4294967296).toNat
  else []

/-- Reference encoding of a UTF-8 string given as its byte sequence
(fixstr / str8 / str16 / str32). -/
def encodeStr (s : List Nat) : List Nat :=
  if s.length < 32 then (0xa0 + s.length) :: s
  else if s.length < 256 then 0xd9 :: s.length :: s
  else if s.length < 65536 then 0xda :: (be2 s.length ++ s)
  else 0xdb :: (be4 s.length ++ s)

/-- Reference encoding of a binary blob (bin8 / bin16 / bin32). -/
def encodeBin (b : List Nat) : List Nat :=
  if b.length < 256 then 0xc4 :: b.length :: b
  else if b.length < 65536 then 0xc5 :: (be2 b.length ++ b)
  else 0xc6 :: (be4 b.length ++ b)

/-- Reference array header (fixarray / array16). -/
def encodeArrHeader (n : Nat) : List Nat :=
  if n < 16 then [0x90 + n] else 0xdc :: be2 n

/-- Reference map header (fixmap / map16 / map32). -/
def encodeMapHeader (n : Nat) : List Nat :=
  if n < 16 then [0x80 + n]
  else if n < 65536 then 0xde :: be2 n
  else 0xdf :: be4 n

mutual

/-- The reference encoder for the binary envelope format, modelled from the
spec (§4.1, §8).  `undef` (not a serializable value) is treated as nil. -/
def encodeMsgpack : Jv → List Nat
  | .undef => [0xc0]
  | .null => [0xc0]
  | .bool false => [0xc2]
  | .bool true => [0xc3]
  | .num n => encodeInt n
  | .str s => encodeStr s
  | .u8 b => encodeBin b
  | .view b => encodeBin b
  | .float32 b => 0xca :: b
  | .float64 b => 0xcb :: b
  | .arr l => encodeArrHeader l.length ++ encodeList l
  | .obj fs => encodeMapHeader fs.length ++ encodeFields fs

/-- Concatenated encodings of the elements of an array. -/
def encodeList : List Jv → List Nat
  | [] => []
  | v :: vs => encodeMsgpack v ++ encodeList vs

/-- Concatenated key/value encodings of the entries of a map. -/
def encodeFields : List (List Nat × Jv) → List Nat
  | [] => []
  | (k, v) :: rest => encodeStr k ++ (encodeMsgpack v ++ encodeFields rest)

end

/-- Key distinctness of a JS object literal. -/
def nodupKeys (ks : List (List Nat)) : Bool :=
  match ks with
  | [] => true
  | k :: rest => !(decide (k ∈ rest)) && nodupKeys rest

mutual

/-- The domain of the amended round-trip claim: values the source parser can
reproduce exactly.  Excludes floats (the source decodes any float as `0`),
`undefined` and raw views (not serializable), integers outside the
`int32`/`uint32` window (the source rejects the 64-bit tags), arrays of
`2^16` or more elements (the source rejects the `array32` tag), and
oversized strings/blobs/maps; bytes must be byte-valued and object keys
distinct. -/
def goodMsgpack : Jv → Bool
  | .undef => false
  | .null => true
  | .bool _ => true
  | .num n => decide (-2147483648 ≤ n) && decide (n < 4294967296)
  | .str s => decide (s.length < 4294967296) && s.all (fun b => decide (b < 256))
  | .u8 b => decide (b.length < 4294967296) && b.all (fun x => decide (x < 256))
  | .view _ => false
  | .float32 _ => false
  | .float64 _ => false
  | .arr l => decide (l.length < 65536) && goodList l
  | .obj fs =>
    decide (fs.length < 4294967296) && nodupKeys (fs.map Prod.fst) &&
      goodFields fs

/-- All elements of an array are good. -/
def goodList : List Jv → Bool
  | [] => true
  | v :: vs => goodMsgpack v && goodList vs

/-- All entries of a map have byte-valued, bounded keys and good values. -/
def goodFields : List (List Nat × Jv) → Bool
  | [] => true
  | (k, v) :: rest =>
    decide (k.length < 4294967296) && k.all (fun b => decide (b < 256)) &&
      goodMsgpack v && goodFields rest

end

/-! ### Bit-level reconstruction lemmas for the big-endian reads -/

theorem lor_shiftLeft_distrib (x y k : Nat) :
    (x ||| y) <<< k = x <<< k ||| y <<< k := by
  apply Nat.eq_of_testBit_eq
  intro j
  simp only [Nat.testBit_shiftLeft, Nat.testBit_lor]
  cases Decidable.em (j ≥ k) with
  | inl h => simp [h]
  | inr h => simp [h]

theorem shiftLeft_lor_small (x k : Nat) {y : Nat} (h : y < 2 ^ k) :
    x <<< k ||| y = x * 2 ^ k + y := by
  rw [Nat.shiftLeft_eq, Nat.mul_comm x, ← Nat.mul_add_lt_is_or h, Nat.mul_comm]

theorem be2_reconstruct {m : Nat} :
    (m / 256) <<< 8 ||| m % 256 = m := by
  have h1 : m % 256 < 2 ^ 8 := by
    have : (2 : Nat) ^ 8 = 256 := by norm_num
    omega
  rw [shiftLeft_lor_small (m / 256) 8 h1]
  have : (2 : Nat) ^ 8 = 256 := by norm_num
  omega

theorem be4_reconstruct {m : Nat} (h : m < 4294967296) :
    (m / 16777216) <<< 24 ||| (m / 65536 % 256) <<< 16 |||
      (m / 256 % 256) <<< 8 ||| m % 256 = m := by
  have hp : (2 : Nat) ^ 8 = 256 := by norm_num
  have hb : m / 65536 % 256 < 2 ^ 8 := by omega
  have hc : m / 256 % 256 < 2 ^ 8 := by omega
  have hd : m % 256 < 2 ^ 8 := by omega
  rw [show (24 : Nat) = 8 + 16 from rfl, Nat.shiftLeft_add,
    ← lor_shiftLeft_distrib, shiftLeft_lor_small (m / 16777216) 8 hb,
    show (16 : Nat) = 8 + 8 from rfl, Nat.shiftLeft_add,
    ← lor_shiftLeft_distrib, shiftLeft_lor_small _ 8 hc,
    shiftLeft_lor_small _ 8 hd]
  omega

/-! ### Tag dispatch facts (checked over the bounded tag ranges) -/

theorem posfixTag : ∀ v : Nat, v < 128 → ((v &&& 128 == 0) = true) := by decide

set_option maxRecDepth 4096 in
theorem negfixTag : ∀ t : Nat, t < 256 → 224 ≤ t →
    ((t &&& 128 == 0) = false) ∧ ((t &&& 224 == 224) = true) := by decide

theorem fixstrTag : ∀ L : Nat, L < 32 →
    (((160 + L) &&& 128 == 0) = false) ∧ (((160 + L) &&& 224 == 224) = false) ∧
    (((160 + L) &&& 240 == 128) = false) ∧ (((160 + L) &&& 240 == 144) = false) ∧
    (((160 + L) &&& 224 == 160) = true) ∧ ((160 + L) &&& 31 = L) := by decide

theorem fixarrTag : ∀ L : Nat, L < 16 →
    (((144 + L) &&& 128 == 0) = false) ∧ (((144 + L) &&& 224 == 224) = false) ∧
    (((144 + L) &&& 240 == 128) = false) ∧ (((144 + L) &&& 240 == 144) = true) ∧
    ((144 + L) &&& 15 = L) := by decide

theorem fixmapTag : ∀ L : Nat, L < 16 →
    (((128 + L) &&& 128 == 0) = false) ∧ (((128 + L) &&& 224 == 224) = false) ∧
    (((128 + L) &&& 240 == 128) = true) ∧ ((128 + L) &&& 15 = L) := by decide


/-- Decoding a reference-encoded integer in the `int32`/`uint32` window. -/
theorem parse_encodeInt (fuel : Nat) (n : Int) (rest : List Nat)
    (hfuel : 1 ≤ fuel) (hlo : -2147483648 ≤ n) (hhi : n < 4294967296) :
    parseAux fuel (.one (encodeInt n ++ rest)) = .ok (.num n, rest) := by
  obtain ⟨f, rfl⟩ : ∃ f, fuel = f + 1 := ⟨fuel - 1, by omega⟩
  unfold encodeInt
  split_ifs with h1 h2 h3 h4 h5 h6 h7 h8
  · have ht := posfixTag n.toNat (by omega)
    rw [List.cons_append, List.nil_append, parseAux_one_cons]
    simp [parseOne, ht, Int.toNat_of_nonneg h1.1]
  · have ht := negfixTag (n + 256).toNat (by omega) (by omega)
    rw [List.cons_append, List.nil_append, parseAux_one_cons]
    simp [parseOne, ht.1, ht.2, Int.toNat_of_nonneg (show (0:Int) ≤ n + 256 by omega)]
  · simp only [List.cons_append, List.nil_append]
    rw [parseAux_one_cons]
    simp +decide [parseOne, byteAt, Int.toNat_of_nonneg h3.1]
  · simp only [be2, List.cons_append, List.nil_append]
    rw [parseAux_one_cons]
    simp +decide [parseOne, byteAt]
    rw [be2_reconstruct]
    simp [Int.toNat_of_nonneg h4.1]
  · simp only [be4, List.cons_append, List.nil_append]
    rw [parseAux_one_cons]
    simp +decide [parseOne, byteAt]
    rw [be4_reconstruct (by omega)]
    simp [Int.toNat_of_nonneg h5.1]
  · have hv : (n + 256).toNat > 127 := by omega
    simp only [List.cons_append, List.nil_append]
    rw [parseAux_one_cons]
    simp +decide [parseOne, byteAt, hv,
      Int.toNat_of_nonneg (show (0:Int) ≤ n + 256 by omega)]
  · simp only [be2, List.cons_append, List.nil_append]
    rw [parseAux_one_cons]
    simp +decide [parseOne, byteAt]
    rw [be2_reconstruct, if_pos (by omega)]
    simp [Int.toNat_of_nonneg (show (0:Int) ≤ n + 65536 by omega)]
  · simp only [be4, List.cons_append, List.nil_append]
    rw [parseAux_one_cons]
    simp +decide [parseOne, byteAt]
    rw [be4_reconstruct (by omega), if_pos (by omega)]
    simp [Int.toNat_of_nonneg (show (0:Int) ≤ n + 4294967296 by omega)]
  · omega

/-- Decoding a reference-encoded string (its UTF-8 bytes). -/
theorem parse_encodeStr (fuel : Nat) (s rest : List Nat)
    (hfuel : 1 ≤ fuel) (hlen : s.length < 4294967296) :
    parseAux fuel (.one (encodeStr s ++ rest)) = .ok (.str s, rest) := by
  obtain ⟨f, rfl⟩ : ∃ f, fuel = f + 1 := ⟨fuel - 1, by omega⟩
  unfold encodeStr
  split_ifs with h1 h2 h3
  · obtain ⟨e1, e2, e3, e4, e5, e6⟩ := fixstrTag s.length h1
    rw [List.cons_append, parseAux_one_cons]
    simp [parseOne, e1, e2, e3, e4, e5, e6, List.take_left, List.drop_left]
  · simp only [List.cons_append]
    rw [parseAux_one_cons]
    simp +decide [parseOne, byteAt, List.take_left, List.drop_left]
  · simp only [be2, List.cons_append, List.append_assoc, List.nil_append]
    rw [parseAux_one_cons]
    simp +decide [parseOne, byteAt]
    rw [be2_reconstruct]
    simp [List.take_left, List.drop_left]
  · simp only [be4, List.cons_append, List.append_assoc, List.nil_append]
    rw [parseAux_one_cons]
    simp +decide [parseOne, byteAt]
    rw [be4_reconstruct hlen]
    simp [List.take_left, List.drop_left]

/-- Decoding a reference-encoded binary blob. -/
theorem parse_encodeBin (fuel : Nat) (b rest : List Nat)
    (hfuel : 1 ≤ fuel) (hlen : b.length < 4294967296) :
    parseAux fuel (.one (encodeBin b ++ rest)) = .ok (.u8 b, rest) := by
  obtain ⟨f, rfl⟩ : ∃ f, fuel = f + 1 := ⟨fuel - 1, by omega⟩
  unfold encodeBin
  split_ifs with h1 h2
  · simp only [List.cons_append]
    rw [parseAux_one_cons]
    simp +decide [parseOne, byteAt, List.take_left, List.drop_left]
  · simp only [be2, List.cons_append, List.append_assoc, List.nil_append]
    rw [parseAux_one_cons]
    simp +decide [parseOne, byteAt]
    rw [be2_reconstruct]
    simp [List.take_left, List.drop_left]
  · simp only [be4, List.cons_append, List.append_assoc, List.nil_append]
    rw [parseAux_one_cons]
    simp +decide [parseOne, byteAt]
    rw [be4_reconstruct hlen]
    simp [List.take_left, List.drop_left]

theorem encodeStr_length_pos (s : List Nat) : 1 ≤ (encodeStr s).length := by
  unfold encodeStr
  split_ifs <;> simp

theorem encodeMsgpack_length_pos (v : Jv) (h : goodMsgpack v = true) :
    1 ≤ (encodeMsgpack v).length := by
  cases v with
  | num n =>
    simp only [goodMsgpack, Bool.and_eq_true, decide_eq_true_eq] at h
    simp only [encodeMsgpack]
    unfold encodeInt
    split_ifs <;> simp <;> omega
  | str s => simpa [encodeMsgpack] using encodeStr_length_pos s
  | u8 b =>
    simp only [encodeMsgpack]
    unfold encodeBin
    split_ifs <;> simp
  | arr l =>
    simp only [encodeMsgpack, List.length_append]
    have : 1 ≤ (encodeArrHeader l.length).length := by
      unfold encodeArrHeader
      split_ifs <;> simp
    omega
  | obj fs =>
    simp only [encodeMsgpack, List.length_append]
    have : 1 ≤ (encodeMapHeader fs.length).length := by
      unfold encodeMapHeader
      split_ifs <;> simp
    omega
  | bool b => cases b <;> simp [encodeMsgpack]
  | _ => simp_all [encodeMsgpack, goodMsgpack]

theorem insertJs_append (acc : List (List Nat × Jv)) (k : List Nat) (v : Jv)
    (h : k ∉ acc.map Prod.fst) : insertJs acc k v = acc ++ [(k, v)] := by
  induction acc with
  | nil => rfl
  | cons kv rest ih =>
    obtain ⟨k2, v2⟩ := kv
    simp only [List.map_cons, List.mem_cons] at h
    push_neg at h
    simp only [insertJs]
    rw [if_neg (fun hk => h.1 hk.symm)]
    simp [ih h.2]

/-- The decode/encode round-trip, proved simultaneously for single values,
array-element runs, and map-entry runs, by strong induction on the fuel. -/
theorem parse_encode_all : ∀ fuel : Nat,
    (∀ v rest, goodMsgpack v = true → 2 * (encodeMsgpack v).length ≤ fuel →
      parseAux fuel (.one (encodeMsgpack v ++ rest)) = .ok (v, rest)) ∧
    (∀ l acc rest, goodList l = true →
      2 * (encodeList l).length + 1 ≤ fuel →
      parseAux fuel (.list l.length acc (encodeList l ++ rest)) =
        .ok (.arr (acc ++ l), rest)) ∧
    (∀ fs acc rest, goodFields fs = true →
      nodupKeys (fs.map Prod.fst) = true →
      (∀ kv ∈ fs, kv.1 ∉ acc.map Prod.fst) →
      2 * (encodeFields fs).length + 1 ≤ fuel →
      parseAux fuel (.map fs.length acc (encodeFields fs ++ rest)) =
        .ok (.obj (acc ++ fs), rest)) := by
  intro fuel
  induction fuel using Nat.strong_induction_on with
  | _ fuel IH =>
  refine ⟨?_, ?_, ?_⟩
  · intro v rest hg hf
    have hp := encodeMsgpack_length_pos v hg
    cases v with
    | undef => simp [goodMsgpack] at hg
    | view b => simp [goodMsgpack] at hg
    | float32 b => simp [goodMsgpack] at hg
    | float64 b => simp [goodMsgpack] at hg
    | null =>
      simp only [encodeMsgpack] at hf ⊢
      obtain ⟨f, rfl⟩ : ∃ f, fuel = f + 1 := ⟨fuel - 1, by simp at hf; omega⟩
      simp only [List.cons_append, List.nil_append]
      rw [parseAux_one_cons]
      simp +decide [parseOne]
    | bool b =>
      cases b <;>
        (simp only [encodeMsgpack] at hf ⊢
         obtain ⟨f, rfl⟩ : ∃ f, fuel = f + 1 := ⟨fuel - 1, by simp at hf; omega⟩
         simp only [List.cons_append, List.nil_append]
         rw [parseAux_one_cons]
         simp +decide [parseOne])
    | num n =>
      simp only [goodMsgpack, Bool.and_eq_true, decide_eq_true_eq] at hg
      simp only [encodeMsgpack] at hp hf ⊢
      exact parse_encodeInt fuel n rest (by omega) hg.1 hg.2
    | str s =>
      simp only [goodMsgpack, Bool.and_eq_true, decide_eq_true_eq] at hg
      simp only [encodeMsgpack] at hp hf ⊢
      exact parse_encodeStr fuel s rest (by omega) hg.1
    | u8 b =>
      simp only [goodMsgpack, Bool.and_eq_true, decide_eq_true_eq] at hg
      simp only [encodeMsgpack] at hp hf ⊢
      exact parse_encodeBin fuel b rest (by omega) hg.1
    | arr l =>
      simp only [goodMsgpack, Bool.and_eq_true, decide_eq_true_eq] at hg
      simp only [encodeMsgpack] at hf ⊢
      rw [List.append_assoc]
      by_cases hL : l.length < 16
      · rw [show encodeArrHeader l.length = [144 + l.length] from by
          unfold encodeArrHeader; rw [if_pos hL]] at hf ⊢
        simp only [List.cons_append, List.nil_append] at hf ⊢
        simp only [List.length_cons, List.length_append] at hf
        obtain ⟨f, rfl⟩ : ∃ f, fuel = f + 1 := ⟨fuel - 1, by omega⟩
        rw [parseAux_one_cons]
        obtain ⟨e1, e2, e3, e4, e5⟩ := fixarrTag l.length hL
        simp only [parseOne, e1, e2, e3, e4, e5, Bool.false_eq_true, if_false,
          if_true]
        have hrec := (IH f (by omega)).2.1 l [] rest hg.2 (by omega)
        simpa using hrec
      · rw [show encodeArrHeader l.length = 0xdc :: be2 l.length from by
          unfold encodeArrHeader; rw [if_neg hL]] at hf ⊢
        simp only [be2, List.cons_append, List.nil_append] at hf ⊢
        simp only [List.length_cons, List.length_append] at hf
        obtain ⟨f, rfl⟩ : ∃ f, fuel = f + 1 := ⟨fuel - 1, by omega⟩
        rw [parseAux_one_cons]
        simp +decide [parseOne, byteAt]
        rw [be2_reconstruct]
        have hrec := (IH f (by omega)).2.1 l [] rest hg.2 (by omega)
        simpa using hrec
    | obj fs =>
      simp only [goodMsgpack, Bool.and_eq_true, decide_eq_true_eq] at hg
      simp only [encodeMsgpack] at hf ⊢
      rw [List.append_assoc]
      have hfresh : ∀ kv ∈ fs, kv.1 ∉ (([] : List (List Nat × Jv)).map Prod.fst) := by
        simp
      by_cases hL : fs.length < 16
      · rw [show encodeMapHeader fs.length = [128 + fs.length] from by
          unfold encodeMapHeader; rw [if_pos hL]] at hf ⊢
        simp only [List.cons_append, List.nil_append] at hf ⊢
        simp only [List.length_cons, List.length_append] at hf
        obtain ⟨f, rfl⟩ : ∃ f, fuel = f + 1 := ⟨fuel - 1, by omega⟩
        rw [parseAux_one_cons]
        obtain ⟨e1, e2, e3, e4⟩ := fixmapTag fs.length hL
        simp only [parseOne, e1, e2, e3, e4, Bool.false_eq_true, if_false,
          if_true]
        have hrec := (IH f (by omega)).2.2 fs [] rest hg.2 hg.1.2 hfresh (by omega)
        simpa using hrec
      · by_cases hL2 : fs.length < 65536
        · rw [show encodeMapHeader fs.length = 0xde :: be2 fs.length from by
            unfold encodeMapHeader; rw [if_neg hL, if_pos hL2]] at hf ⊢
          simp only [be2, List.cons_append, List.nil_append] at hf ⊢
          simp only [List.length_cons, List.length_append] at hf
          obtain ⟨f, rfl⟩ : ∃ f, fuel = f + 1 := ⟨fuel - 1, by omega⟩
          rw [parseAux_one_cons]
          simp +decide [parseOne, byteAt]
          rw [be2_reconstruct]
          have hrec := (IH f (by omega)).2.2 fs [] rest hg.2 hg.1.2 hfresh (by omega)
          simpa using hrec
        · rw [show encodeMapHeader fs.length = 0xdf :: be4 fs.length from by
            unfold encodeMapHeader; rw [if_neg hL, if_neg hL2]] at hf ⊢
          simp only [be4, List.cons_append, List.nil_append] at hf ⊢
          simp only [List.length_cons, List.length_append] at hf
          obtain ⟨f, rfl⟩ : ∃ f, fuel = f + 1 := ⟨fuel - 1, by omega⟩
          rw [parseAux_one_cons]
          simp +decide [parseOne, byteAt]
          rw [be4_reconstruct hg.1.1]
          have hrec := (IH f (by omega)).2.2 fs [] rest hg.2 hg.1.2 hfresh (by omega)
          simpa using hrec
  · intro l acc rest hgl hf
    cases l with
    | nil =>
      simp only [encodeList, List.length_nil] at hf ⊢
      obtain ⟨f, rfl⟩ : ∃ f, fuel = f + 1 := ⟨fuel - 1, by omega⟩
      simp [parseAux_list_zero]
    | cons v vs =>
      simp only [goodList, Bool.and_eq_true] at hgl
      have hp := encodeMsgpack_length_pos v hgl.1
      simp only [encodeList, List.length_append] at hf
      obtain ⟨f, rfl⟩ : ∃ f, fuel = f + 1 := ⟨fuel - 1, by omega⟩
      simp only [encodeList, List.length_cons, List.append_assoc]
      rw [parseAux_list_succ]
      rw [(IH f (by omega)).1 v (encodeList vs ++ rest) hgl.1 (by omega)]
      show parseAux f (.list vs.length (acc ++ [v]) (encodeList vs ++ rest)) = _
      rw [(IH f (by omega)).2.1 vs (acc ++ [v]) rest hgl.2 (by omega)]
      simp
  · intro fs acc rest hgf hnd hfresh hf
    cases fs with
    | nil =>
      simp only [encodeFields, List.length_nil] at hf ⊢
      obtain ⟨f, rfl⟩ : ∃ f, fuel = f + 1 := ⟨fuel - 1, by omega⟩
      simp [parseAux_map_zero]
    | cons kv rest2 =>
      obtain ⟨k, v⟩ := kv
      simp only [goodFields, Bool.and_eq_true, decide_eq_true_eq] at hgf
      obtain ⟨⟨⟨hklen, hkbytes⟩, hgv⟩, hgrest⟩ := hgf
      have hkp := encodeStr_length_pos k
      have hvp := encodeMsgpack_length_pos v hgv
      simp only [encodeFields, List.length_append] at hf
      obtain ⟨f, rfl⟩ : ∃ f, fuel = f + 1 := ⟨fuel - 1, by omega⟩
      simp only [encodeFields, List.length_cons, List.append_assoc]
      rw [parseAux_map_succ]
      rw [parse_encodeStr f k _ (by omega) hklen]
      show (match parseAux f
          (.one (encodeMsgpack v ++ (encodeFields rest2 ++ rest))) with
        | .error e => (.error e : Except PErr (Jv × List Nat))
        | .ok (w, rem3) =>
          parseAux f (.map rest2.length (insertJs acc (jsToString (.str k)) w) rem3)) = _
      rw [(IH f (by omega)).1 v (encodeFields rest2 ++ rest) hgv (by omega)]
      show parseAux f (.map rest2.length (insertJs acc (jsToString (.str k)) v)
        (encodeFields rest2 ++ rest)) = _
      have hndc : (k ∉ rest2.map Prod.fst) ∧ nodupKeys (rest2.map Prod.fst) = true := by
        simpa [nodupKeys] using hnd
      rw [show jsToString (.str k) = k from rfl,
        insertJs_append acc k v (hfresh (k, v) (by simp))]
      have hfresh2 : ∀ kv ∈ rest2, kv.1 ∉ ((acc ++ [(k, v)]).map Prod.fst) := by
        intro kv hkv
        simp only [List.map_append, List.mem_append, List.map_cons,
          List.map_nil, List.mem_cons, List.not_mem_nil]
        push_neg
        refine ⟨hfresh kv (by simp [hkv]), ?_, fun hfalse => hfalse⟩
        intro heq
        exact hndc.1 (heq ▸ (List.mem_map_of_mem Prod.fst hkv))
      rw [(IH f (by omega)).2.2 rest2 (acc ++ [(k, v)]) rest hgrest hndc.2
        hfresh2 (by omega)]
      simp

/-- Claim C3 counterexample: the reference float32 encoding of 1.5 (IEEE-754
bytes `3f c0 00 00`) decodes to the integer `0` — the source's `0xca` branch
skips the four payload bytes and returns `0` — so the decoded value is not
structurally equal to the original float value. -/
theorem parseMsgpack_float_not_roundtrip :
    parseMsgpack (encodeMsgpack (.float32 [0x3f, 0xc0, 0, 0])) =
      .ok (.num 0, []) ∧
    Jv.num 0 ≠ Jv.float32 [0x3f, 0xc0, 0, 0] := by
  constructor
  · rw [show encodeMsgpack (.float32 [0x3f, 0xc0, 0, 0]) =
      [0xca, 0x3f, 0xc0, 0, 0] from by simp [encodeMsgpack]]
    rfl
  · intro h
    cases h

/-- Claim C3 (amended): for every value built from nested maps (with
distinct keys), arrays of fewer than `2^16` elements, UTF-8 strings, binary
blobs, integers in the `int32`/`uint32` window, booleans, and null — i.e.
every `goodMsgpack` value, which excludes floats — decoding the reference
encoding at offset 0 returns a value structurally equal to the original and
consumes the whole buffer.  Floats are excluded because the source decodes
any `0xca`/`0xcb` payload as the integer `0`. -/
theorem parseMsgpack_roundtrip (v : Jv) (h : goodMsgpack v = true) :
    parseMsgpack (encodeMsgpack v) = .ok (v, []) := by
  have hm := (parse_encode_all (2 * (encodeMsgpack v).length + 2)).1 v [] h
    (by omega)
  rw [parseMsgpack]
  simpa using hm

/-- Witness for `parseMsgpack_roundtrip` at a nested value exercising maps,
arrays, strings, binary blobs, negative and large integers, booleans and
null. -/
theorem parseMsgpack_roundtrip_witness :
    goodMsgpack (.arr [.str [104, 105],
      .obj [([97], .num (-5)), ([98], .u8 [1, 2])],
      .bool true, .null, .num 300]) = true ∧
    parseMsgpack (encodeMsgpack (.arr [.str [104, 105],
      .obj [([97], .num (-5)), ([98], .u8 [1, 2])],
      .bool true, .null, .num 300])) =
      .ok (.arr [.str [104, 105],
        .obj [([97], .num (-5)), ([98], .u8 [1, 2])],
        .bool true, .null, .num 300], []) := by
  have hg : goodMsgpack (.arr [.str [104, 105],
      .obj [([97], .num (-5)), ([98], .u8 [1, 2])],
      .bool true, .null, .num 300]) = true := by
    simp +decide [goodMsgpack, goodList, goodFields, nodupKeys]
  exact ⟨hg, parseMsgpack_roundtrip _ hg⟩

/-! ### Frame extractor (`extractAllBytes`, source lines 41-95) -/

/-- Decimal digit bytes (ASCII) of a natural number, as produced by the JS
`String(i)` conversion of an array index. -/
def natDigits (n : Nat) : List Nat :=
  if n < 10 then [48 + n] else natDigits (n / 10) ++ [48 + n % 10]

/-- ASCII decimal digit test. -/
def isDigitByte (b : Nat) : Bool := 48 ≤ b && b ≤ 57

/-- Value of a string of decimal digit bytes. -/
def decimalVal (s : List Nat) : Nat := s.foldl (fun a b => a * 10 + (b - 48)) 0

/-- The source's numeric-key test `!isNaN(Number(k))`, on the decimal-digit
strings that index keys take. -/
def isNumericKey (s : List Nat) : Bool := !s.isEmpty && s.all isDigitByte

/-- JS `ToUint8` coercion applied when storing a value into a `Uint8Array`
(`new Uint8Array(numbers)` / `bytes[i] = v ?? 0`): numbers wrap modulo 256,
booleans become 0/1, nullish and non-numeric values give 0 (`NaN → 0`),
digit strings convert to their numeric value. -/
def toByte : Jv → Nat
  | .num n => (n % 256).toNat
  | .bool true => 1
  | .bool false => 0
  | .str s => if !s.isEmpty && s.all isDigitByte then decimalVal s % 256 else 0
  | _ => 0

/-- Is the value a JS number (`typeof v === "number"`)?  Parsed floats never
occur (the parser yields `0` for them), so only `num` counts. -/
def isNumJv : Jv → Bool
  | .num _ => true
  | _ => false

/-- Is an optional property value a JS number (`typeof obj[k] === "number"`,
with an absent property being `undefined`)? -/
def isNumO : Option Jv → Bool
  | some (.num _) => true
  | _ => false

/-- Value of one base64 alphabet byte (standard plus url-safe variants, as
accepted by the JS `Buffer` polyfill); anything else is ignored by the
lenient decoder, which never throws. -/
def b64Val (c : Nat) : Option Nat :=
  if 65 ≤ c ∧ c ≤ 90 then some (c - 65)
  else if 97 ≤ c ∧ c ≤ 122 then some (c - 97 + 26)
  else if 48 ≤ c ∧ c ≤ 57 then some (c - 48 + 52)
  else if c = 43 ∨ c = 45 then some 62
  else if c = 47 ∨ c = 95 then some 63
  else none

/-- Reassemble bytes from 6-bit groups; a leftover of one group yields no
byte, leftovers of two or three yield one or two bytes. -/
def b64Groups : List Nat → List Nat
  | a :: b :: c :: d :: rest =>
    (a <<< 2 ||| b >>> 4) :: ((b &&& 15) <<< 4 ||| c >>> 2) ::
      ((c &&& 3) <<< 6 ||| d) :: b64Groups rest
  | [a, b] => [a <<< 2 ||| b >>> 4]
  | [a, b, c] => [a <<< 2 ||| b >>> 4, (b &&& 15) <<< 4 ||| c >>> 2]
  | _ => []

/-- Lenient base64 decoding: `Buffer.from(str, "base64")` of the source —
ignores non-alphabet bytes, never fails. -/
def base64Decode (s : List Nat) : List Nat := b64Groups (s.filterMap b64Val)

/-- JS property read `obj[k]` on a plain object (first binding wins). -/
def lookupJs (fs : List (List Nat × Jv)) (k : List Nat) : Option Jv :=
  List.lookup k fs

/-- `Object.keys`: each key once, first occurrence order. -/
def dedupAux (seen : List (List Nat)) : List (List Nat) → List (List Nat)
  | [] => []
  | k :: ks =>
    if k ∈ seen then dedupAux seen ks else k :: dedupAux (k :: seen) ks

def dedupKeys (ks : List (List Nat)) : List (List Nat) := dedupAux [] ks

/-- Insertion into a list sorted by numeric key value (the source's
`sort((a, b) => Number(a) - Number(b))`). -/
def insertByVal (k : List Nat) : List (List Nat) → List (List Nat)
  | [] => [k]
  | x :: xs =>
    if decimalVal k < decimalVal x then k :: x :: xs else x :: insertByVal k xs

def sortByVal : List (List Nat) → List (List Nat)
  | [] => []
  | x :: xs => insertByVal x (sortByVal xs)

/-- The ASCII bytes of `"length"`. -/
def lengthKey : List Nat := [108, 101, 110, 103, 116, 104]

theorem sizeOf_lookupJs_getD (fs : List (List Nat × Jv)) (k : List Nat) :
    sizeOf ((lookupJs fs k).getD .undef) < 1 + sizeOf fs := by
  induction fs with
  | nil => simp [lookupJs, List.lookup]
  | cons kv rest ih =>
    obtain ⟨k2, v2⟩ := kv
    simp only [lookupJs, List.lookup] at ih ⊢
    cases h : k == k2 with
    | true =>
      simp only [Option.getD_some]
      simp only [List.cons.sizeOf_spec, Prod.mk.sizeOf_spec]
      omega
    | false =>
      simp only [List.cons.sizeOf_spec, Prod.mk.sizeOf_spec]
      omega

mutual

/-- Shallow embedding of `extractAllBytes(v)` (source lines 41-95), the
defensive multi-frame byte extractor.  Branches in source order: nullish,
`Uint8Array`, other views, base64 strings, arrays headed by a number,
array-likes with a numeric `length` property (byte-building first, else
recursion per index), arrays (recursion per element), then plain objects
with numeric string keys sorted numerically; anything else yields no
frames. -/
def extractAllBytes : Jv → List (List Nat)
  | .null => []
  | .undef => []
  | .u8 b => if 0 < b.length then [b] else []
  | .view b => if 0 < b.length then [b] else []
  | .str s =>
    if s.isEmpty then []
    else if 0 < (base64Decode s).length then [base64Decode s] else []
  | .num _ => []
  | .bool _ => []
  | .float32 _ => []
  | .float64 _ => []
  | .arr l =>
    match l with
    | [] => []
    | x :: xs =>
      if isNumJv x then [(x :: xs).map toByte] else extractList (x :: xs)
  | .obj fs =>
    match lookupJs fs lengthKey with
    | some (.num L) =>
      if 0 < L then
        match lookupJs fs [48] with
        | some (.num _) =>
          [(List.range L.toNat).map
            (fun i => toByte ((lookupJs fs (natDigits i)).getD .undef))]
        | _ => extractKeys fs ((List.range L.toNat).map natDigits)
      else extractNumKeys fs
    | _ => extractNumKeys fs
termination_by v => (sizeOf v, 3, 0)
decreasing_by
  · apply Prod.Lex.left
    simp only [Jv.arr.sizeOf_spec]
    omega
  · simp only [Jv.obj.sizeOf_spec]
    apply Prod.Lex.right
    apply Prod.Lex.left
    omega
  · simp only [Jv.obj.sizeOf_spec]
    apply Prod.Lex.right
    apply Prod.Lex.left
    omega

/-- The element loop of the source's array-recursion branch. -/
def extractList : List Jv → List (List Nat)
  | [] => []
  | v :: vs => extractAllBytes v ++ extractList vs
termination_by l => (sizeOf l, 3, 0)
decreasing_by
  · apply Prod.Lex.left
    simp only [List.cons.sizeOf_spec]
    omega
  · apply Prod.Lex.left
    simp only [List.cons.sizeOf_spec]
    omega

/-- The numeric-string-key branch: filter the object's keys to numeric
ones and sort numerically (`keys` of the source lines 81-91). -/
def extractNumKeys (fs : List (List Nat × Jv)) : List (List Nat) :=
  extractKeysDispatch fs
    (sortByVal ((dedupKeys (fs.map Prod.fst)).filter isNumericKey))
termination_by (1 + sizeOf fs, 2, 0)
decreasing_by
  · apply Prod.Lex.right
    apply Prod.Lex.left
    omega

/-- Dispatch on the sorted numeric keys: none yields no frames; if the
first resolved value is a number, build one byte buffer over all keys,
otherwise recurse per key. -/
def extractKeysDispatch (fs : List (List Nat × Jv)) :
    List (List Nat) → List (List Nat)
  | [] => []
  | k0 :: ks =>
    if isNumO (lookupJs fs k0) then
      [(k0 :: ks).map (fun k => toByte ((lookupJs fs k).getD .undef))]
    else extractKeys fs (k0 :: ks)
termination_by ks => (1 + sizeOf fs, 1, 0)
decreasing_by
  · apply Prod.Lex.right
    apply Prod.Lex.left
    omega

/-- The per-key recursion over an object's resolved values. -/
def extractKeys (fs : List (List Nat × Jv)) : List (List Nat) →
    List (List Nat)
  | [] => []
  | k :: ks =>
    extractAllBytes ((lookupJs fs k).getD .undef) ++ extractKeys fs ks
termination_by ks => (1 + sizeOf fs, 0, ks.length)
decreasing_by
  · apply Prod.Lex.left
    exact sizeOf_lookupJs_getD fs k
  · apply Prod.Lex.right
    apply Prod.Lex.right
    simp

end

/-! ### Digit-string and key-list facts used for the numeric-key shape -/

theorem natDigits_digits (n : Nat) : ∀ d ∈ natDigits n, 48 ≤ d ∧ d ≤ 57 := by
  induction n using Nat.strong_induction_on with
  | _ n ih =>
    unfold natDigits
    split_ifs with h
    · intro d hd
      simp at hd
      omega
    · intro d hd
      simp only [List.mem_append, List.mem_singleton] at hd
      rcases hd with hd | hd
      · exact ih (n / 10) (by omega) d hd
      · omega

theorem natDigits_ne_nil (n : Nat) : natDigits n ≠ [] := by
  unfold natDigits
  split_ifs <;> simp

theorem decimalVal_append_singleton (xs : List Nat) (d : Nat) :
    decimalVal (xs ++ [d]) = 10 * decimalVal xs + (d - 48) := by
  simp [decimalVal, List.foldl_append]
  ring

theorem decimalVal_natDigits (n : Nat) : decimalVal (natDigits n) = n := by
  induction n using Nat.strong_induction_on with
  | _ n ih =>
    unfold natDigits
    split_ifs with h
    · simp [decimalVal]
    · rw [decimalVal_append_singleton, ih (n / 10) (by omega)]
      omega

theorem natDigits_inj {m n : Nat} (h : natDigits m = natDigits n) : m = n := by
  have hm := decimalVal_natDigits m
  rw [h, decimalVal_natDigits] at hm
  omega

theorem isNumericKey_natDigits (n : Nat) : isNumericKey (natDigits n) = true := by
  have h1 := natDigits_ne_nil n
  simp only [isNumericKey, Bool.and_eq_true, Bool.not_eq_true',
    List.isEmpty_eq_false, List.all_eq_true, ne_eq]
  refine ⟨h1, fun d hd => ?_⟩
  have := natDigits_digits n d hd
  simp [isDigitByte]
  omega

theorem natDigits_ne_lengthKey (n : Nat) : natDigits n ≠ lengthKey := by
  intro h
  have := natDigits_digits n 108 (by rw [h]; simp [lengthKey])
  omega

theorem dedupAux_of_nodup (ks : List (List Nat)) :
    ∀ seen, ks.Nodup → (∀ k ∈ ks, k ∉ seen) → dedupAux seen ks = ks := by
  induction ks with
  | nil => intro seen _ _; rfl
  | cons k rest ih =>
    intro seen hnd hdis
    simp only [dedupAux]
    rw [if_neg (hdis k (by simp))]
    congr 1
    refine ih (k :: seen) (by simpa using hnd.of_cons) ?_
    intro x hx
    simp only [List.mem_cons, not_or]
    exact ⟨fun hxk => (List.nodup_cons.mp hnd).1 (hxk ▸ hx),
      hdis x (by simp [hx])⟩

/-- Consecutive numeric-string-keyed fields holding the byte values `bs`,
starting at index `start` — the runtime shape a byte array degrades to when
bridged as a plain object (`{"0": b0, "1": b1, ...}`). -/
def numFields (start : Nat) : List Nat → List (List Nat × Jv)
  | [] => []
  | b :: bs => (natDigits start, .num b) :: numFields (start + 1) bs

theorem keysNF_mem (bs : List Nat) :
    ∀ s k, k ∈ (numFields s bs).map Prod.fst → ∃ j, s ≤ j ∧ k = natDigits j := by
  induction bs with
  | nil => intro s k h; simp [numFields] at h
  | cons b rest ih =>
    intro s k h
    simp only [numFields, List.map_cons, List.mem_cons] at h
    rcases h with h | h
    · exact ⟨s, le_refl s, h⟩
    · obtain ⟨j, hj, hk⟩ := ih (s + 1) k h
      exact ⟨j, by omega, hk⟩

theorem keysNF_nodup (bs : List Nat) :
    ∀ s, ((numFields s bs).map Prod.fst).Nodup := by
  induction bs with
  | nil => intro s; simp [numFields]
  | cons b rest ih =>
    intro s
    simp only [numFields, List.map_cons, List.nodup_cons]
    refine ⟨fun hmem => ?_, ih (s + 1)⟩
    obtain ⟨j, hj, hk⟩ := keysNF_mem rest (s + 1) _ hmem
    have := natDigits_inj hk
    omega

theorem lookup_numFields_lengthKey (bs : List Nat) :
    ∀ s, lookupJs (numFields s bs) lengthKey = none := by
  induction bs with
  | nil => intro s; rfl
  | cons b rest ih =>
    intro s
    simp only [numFields, lookupJs, List.lookup]
    rw [show (lengthKey == natDigits s) = false from
      beq_eq_false_iff_ne.mpr (fun h => natDigits_ne_lengthKey s h.symm)]
    exact ih (s + 1)

theorem sortByVal_keysNF (bs : List Nat) :
    ∀ s, sortByVal ((numFields s bs).map Prod.fst) =
      (numFields s bs).map Prod.fst := by
  induction bs with
  | nil => intro s; rfl
  | cons b rest ih =>
    intro s
    simp only [numFields, List.map_cons, sortByVal]
    rw [ih (s + 1)]
    cases rest with
    | nil => rfl
    | cons c rest2 =>
      simp only [numFields, List.map_cons, insertByVal]
      rw [if_pos]
      rw [decimalVal_natDigits, decimalVal_natDigits]
      omega

theorem map_toByte_numFields (bs : List Nat) :
    ∀ s, ((numFields s bs).map Prod.fst).map
      (fun k => toByte ((lookupJs (numFields s bs) k).getD .undef)) =
      bs.map (fun b => toByte (.num (Int.ofNat b))) := by
  induction bs with
  | nil => intro s; rfl
  | cons b rest ih =>
    intro s
    simp only [numFields, List.map_cons]
    congr 1
    · simp [lookupJs, List.lookup]
    · have hstep : ((numFields (s + 1) rest).map Prod.fst).map
          (fun k => toByte ((lookupJs ((natDigits s, Jv.num (b : Int)) ::
            numFields (s + 1) rest) k).getD .undef)) =
          ((numFields (s + 1) rest).map Prod.fst).map
          (fun k => toByte ((lookupJs (numFields (s + 1) rest) k).getD .undef)) := by
        apply List.map_congr_left
        intro k hk
        obtain ⟨j, hj, rfl⟩ := keysNF_mem rest (s + 1) k hk
        simp only [lookupJs, List.lookup]
        rw [show (natDigits j == natDigits s) = false from
          beq_eq_false_iff_ne.mpr (fun h => by have := natDigits_inj h; omega)]
      rw [hstep, ih (s + 1)]

theorem toByte_num_byte {b : Nat} (h : b < 256) :
    toByte (.num (Int.ofNat b)) = b := by
  simp [toByte]
  omega

theorem extract_u8_flatten (fl : List Nat) :
    (extractAllBytes (.u8 fl)).flatten = fl := by
  simp only [extractAllBytes]
  split_ifs with h
  · simp
  · have : fl = [] := by
      cases fl with
      | nil => rfl
      | cons x xs => simp at h
    simp [this]

theorem map_toByte_num (bs : List Nat) (h : ∀ x ∈ bs, x < 256) :
    bs.map (fun x => toByte (.num (Int.ofNat x))) = bs := by
  rw [List.map_congr_left (fun x hx => toByte_num_byte (h x hx))]
  simp

theorem extractList_u8_flatten (F : List (List Nat)) :
    (extractList (F.map .u8)).flatten = F.flatten := by
  induction F with
  | nil => simp [extractList]
  | cons f rest ih =>
    simp only [List.map_cons, extractList, List.flatten_append, ih,
      List.flatten_cons]
    rw [show (extractAllBytes (.u8 f)).flatten = f from extract_u8_flatten f]

/-- A logical list of byte buffers arriving as one binary blob. -/
def shapeBlob (F : List (List Nat)) : Jv := .u8 F.flatten

/-- A logical list of byte buffers arriving as a nested list of blobs. -/
def shapeNested (F : List (List Nat)) : Jv := .arr (F.map .u8)

/-- A logical list of byte buffers arriving as a flat array of byte
values. -/
def shapeFlat (F : List (List Nat)) : Jv :=
  .arr (F.flatten.map (fun b => .num (Int.ofNat b)))

/-- A logical list of byte buffers arriving as a plain object with
consecutive numeric string keys holding the byte values. -/
def shapeKeyed (F : List (List Nat)) : Jv := .obj (numFields 0 F.flatten)

/-- Claim C8: whatever runtime shape a logical list of byte buffers
degrades to — one blob, a nested list of blobs, a flat array of byte
values, or a numeric-string-keyed plain object — `extractAllBytes` yields
byte-buffer lists carrying the same bytes in the same order (equal
concatenations). -/
theorem extractAllBytes_shape_equiv (F : List (List Nat))
    (h : ∀ b ∈ F.flatten, b < 256) :
    (extractAllBytes (shapeBlob F)).flatten = F.flatten ∧
    (extractAllBytes (shapeNested F)).flatten = F.flatten ∧
    (extractAllBytes (shapeFlat F)).flatten = F.flatten ∧
    (extractAllBytes (shapeKeyed F)).flatten = F.flatten := by
  refine ⟨extract_u8_flatten F.flatten, ?_, ?_, ?_⟩
  · rw [shapeNested]
    cases F with
    | nil => simp [extractAllBytes, extractList]
    | cons f rest =>
      simp only [List.map_cons, extractAllBytes, isNumJv]
      exact extractList_u8_flatten (f :: rest)
  · rw [shapeFlat]
    cases hF : F.flatten with
    | nil => simp [extractAllBytes]
    | cons b bs =>
      simp only [List.map_cons, extractAllBytes, isNumJv, if_true,
        List.flatten_cons, List.flatten_nil, List.append_nil]
      show ((b :: bs).map (fun x => Jv.num (Int.ofNat x))).map toByte = b :: bs
      rw [List.map_map]
      exact map_toByte_num (b :: bs) (fun x hx => h x (hF ▸ hx))
  · rw [shapeKeyed]
    simp only [extractAllBytes, lookup_numFields_lengthKey F.flatten 0]
    rw [extractNumKeys]
    rw [show dedupKeys ((numFields 0 F.flatten).map Prod.fst) =
        (numFields 0 F.flatten).map Prod.fst from
      dedupAux_of_nodup _ [] (keysNF_nodup F.flatten 0) (by simp)]
    rw [List.filter_eq_self.mpr (fun k hk => by
      obtain ⟨j, _, rfl⟩ := keysNF_mem F.flatten 0 k hk
      exact isNumericKey_natDigits j)]
    rw [sortByVal_keysNF F.flatten 0]
    cases hF : F.flatten with
    | nil => simp [numFields, extractKeysDispatch]
    | cons b bs =>
      rw [show (numFields 0 (b :: bs)).map Prod.fst =
        natDigits 0 :: (numFields 1 bs).map Prod.fst from by simp [numFields]]
      rw [extractKeysDispatch]
      rw [show lookupJs (numFields 0 (b :: bs)) (natDigits 0) =
        some (.num (Int.ofNat b)) from by simp [numFields, lookupJs, List.lookup]]
      rw [if_pos (by simp [isNumO])]
      rw [show natDigits 0 :: (numFields 1 bs).map Prod.fst =
        (numFields 0 (b :: bs)).map Prod.fst from by simp [numFields]]
      rw [map_toByte_numFields (b :: bs) 0]
      simp only [List.flatten_cons, List.flatten_nil, List.append_nil]
      exact map_toByte_num (b :: bs) (fun x hx => h x (hF ▸ hx))

/-- Witness for `extractAllBytes_shape_equiv` at the logical frame list
`[[1, 2], [3]]`. -/
theorem extractAllBytes_shape_equiv_witness :
    (∀ b ∈ ([[1, 2], [3]] : List (List Nat)).flatten, b < 256) ∧
    ((extractAllBytes (shapeBlob [[1, 2], [3]])).flatten =
        ([[1, 2], [3]] : List (List Nat)).flatten ∧
      (extractAllBytes (shapeNested [[1, 2], [3]])).flatten =
        ([[1, 2], [3]] : List (List Nat)).flatten ∧
      (extractAllBytes (shapeFlat [[1, 2], [3]])).flatten =
        ([[1, 2], [3]] : List (List Nat)).flatten ∧
      (extractAllBytes (shapeKeyed [[1, 2], [3]])).flatten =
        ([[1, 2], [3]] : List (List Nat)).flatten) :=
  ⟨by decide, extractAllBytes_shape_equiv [[1, 2], [3]] (by decide)⟩

/-- All frames the extractor ever returns are non-empty, proved for the
four mutually defined functions simultaneously by strong induction on
size. -/
theorem extract_nonempty_strong : ∀ n : Nat,
    (∀ v : Jv, sizeOf v ≤ n →
      (extractAllBytes v).all (fun b => !b.isEmpty) = true) ∧
    (∀ l : List Jv, sizeOf l ≤ n →
      (extractList l).all (fun b => !b.isEmpty) = true) ∧
    (∀ fs : List (List Nat × Jv), sizeOf fs + 1 ≤ n →
      ∀ ks, (extractKeys fs ks).all (fun b => !b.isEmpty) = true) := by
  intro n
  induction n using Nat.strong_induction_on with
  | _ n IH =>
  have hC : ∀ fs : List (List Nat × Jv), sizeOf fs + 1 ≤ n →
      ∀ ks, (extractKeys fs ks).all (fun b => !b.isEmpty) = true := by
    intro fs hfs ks
    induction ks with
    | nil => simp [extractKeys]
    | cons k ks2 ihk =>
      simp only [extractKeys, List.all_append, Bool.and_eq_true]
      refine ⟨?_, ihk⟩
      have hv := sizeOf_lookupJs_getD fs k
      exact (IH (n - 1) (by omega)).1 _ (by omega)
  refine ⟨?_, ?_, hC⟩
  · intro v hv
    cases v with
    | null => simp [extractAllBytes]
    | undef => simp [extractAllBytes]
    | num m => simp [extractAllBytes]
    | bool b => simp [extractAllBytes]
    | float32 b => simp [extractAllBytes]
    | float64 b => simp [extractAllBytes]
    | u8 b =>
      simp only [extractAllBytes]
      split_ifs with h
      · cases b with
        | nil => simp at h
        | cons x xs => simp
      · simp
    | view b =>
      simp only [extractAllBytes]
      split_ifs with h
      · cases b with
        | nil => simp at h
        | cons x xs => simp
      · simp
    | str s =>
      simp only [extractAllBytes]
      split_ifs with h1 h2
      · simp
      · rcases hd : base64Decode s with _ | ⟨x, xs⟩
        · rw [hd] at h2
          simp at h2
        · simp
      · rfl
    | arr l =>
      simp only [Jv.arr.sizeOf_spec] at hv
      cases l with
      | nil => simp [extractAllBytes]
      | cons x xs =>
        simp only [extractAllBytes]
        split_ifs with hx
        · simp
        · exact (IH (n - 1) (by omega)).2.1 (x :: xs) (by omega)
    | obj fs =>
      simp only [Jv.obj.sizeOf_spec] at hv
      have hD : ∀ ks2, (extractKeysDispatch fs ks2).all
          (fun b => !b.isEmpty) = true := by
        intro ks2
        cases ks2 with
        | nil => simp [extractKeysDispatch]
        | cons k0 ks =>
          simp only [extractKeysDispatch]
          split_ifs with hnum
          · simp
          · exact hC fs (by omega) (k0 :: ks)
      have hNK : (extractNumKeys fs).all (fun b => !b.isEmpty) = true := by
        rw [extractNumKeys]
        exact hD _
      simp only [extractAllBytes]
      rcases hL : lookupJs fs lengthKey with _ | v2
      · exact hNK
      · cases v2 <;> try exact hNK
        rename_i L
        dsimp only
        split_ifs with hpos
        · rcases h48 : lookupJs fs [48] with _ | v3
          · exact hC fs (by omega) _
          · cases v3 <;> try exact hC fs (by omega) _
            rename_i m
            dsimp only
            simp [List.isEmpty_iff_length_eq_zero]
            omega
        · exact hNK
  · intro l hl
    cases l with
    | nil => simp [extractList]
    | cons v vs =>
      simp only [List.cons.sizeOf_spec] at hl
      simp only [extractList, List.all_append, Bool.and_eq_true]
      exact ⟨(IH (n - 1) (by omega)).1 v (by omega),
        (IH (n - 1) (by omega)).2.1 vs (by omega)⟩

/-- Claim C10: every byte buffer returned by `extractAllBytes` is
non-empty — zero-length blobs, empty strings, and empty arrays contribute
no frames rather than empty frames. -/
theorem extractAllBytes_frames_nonempty (v : Jv) :
    (extractAllBytes v).all (fun b => !b.isEmpty) = true :=
  (extract_nonempty_strong (sizeOf v)).1 v (le_refl _)

/-- Claim C9: `extractAllBytes` is a total function — it terminates and
returns a list of byte buffers on every input, including invalid base64
(the lenient decoder never fails) — and yields the empty list on nullish,
numeric, boolean, empty-string, empty-array, and empty-object inputs.
Resource exhaustion (cyclic structures cannot be expressed as inductive
values) is outside the model. -/
theorem extractAllBytes_total_empty :
    extractAllBytes .null = [] ∧ extractAllBytes .undef = [] ∧
    (∀ n : Int, extractAllBytes (.num n) = []) ∧
    (∀ b : Bool, extractAllBytes (.bool b) = []) ∧
    extractAllBytes (.str []) = [] ∧
    extractAllBytes (.str [33, 33]) = [] ∧
    extractAllBytes (.arr []) = [] ∧
    extractAllBytes (.obj []) = [] := by
  refine ⟨by simp [extractAllBytes], by simp [extractAllBytes],
    fun n => by simp [extractAllBytes], fun b => by simp [extractAllBytes],
    by simp [extractAllBytes], ?_, by simp [extractAllBytes], ?_⟩
  · simp +decide [extractAllBytes, base64Decode, b64Val, b64Groups]
  · simp [extractAllBytes, lookupJs, List.lookup, extractNumKeys, dedupKeys,
      dedupAux, sortByVal, extractKeysDispatch]

/-! ### Audio sink: the ordered playback queue (`_enqueueAudioFrame`,
source lines 593-599)

The source keeps `playbackQueue: Promise<void>` and enqueues each frame as
`this.playbackQueue = this.playbackQueue.then(async () => { try { await
StormeeAudioModule.writeAudioFrame(b64) } catch (_) {} })`.  The promise
semantics embedded here: a continuation attached with `.then` runs exactly
when its antecedent fulfills (a rejected antecedent skips it and propagates
the rejection), and each link's body swallows the write's failure with
`try/catch`, so every link fulfills whatever the write's outcome. -/

/-- Result of one `writeAudioFrame` call on the native side. -/
inductive WriteOutcome : Type where
  | ok : WriteOutcome
  | err : WriteOutcome
deriving DecidableEq, Repr

/-- One enqueued frame together with the behaviour of its submission:
how long the native call takes and whether it resolves or rejects. -/
structure FrameSub : Type where
  frame : List Nat
  latency : Nat
  outcome : WriteOutcome
deriving DecidableEq, Repr

inductive PStatus : Type where
  | fulfilled : PStatus
  | rejected : PStatus
deriving DecidableEq, Repr

/-- The status of one chain link's promise: the `try { … } catch (_) {}`
body swallows the write's rejection, so the link fulfills regardless of the
write's outcome. -/
def linkStatus : WriteOutcome → PStatus
  | _ => .fulfilled

/-- Observable events at the playback collaborator. -/
inductive SinkEv : Type where
  | startWrite (frame : List Nat) : SinkEv
  | settle (frame : List Nat) (o : WriteOutcome) : SinkEv
deriving DecidableEq, Repr

/-- Timed execution of the chain from time `t`: a fulfilled antecedent
starts the next write immediately, which settles after its latency, and
the following link continues from that completion time; a rejected
antecedent would skip every remaining continuation. -/
def runQueue (t : Nat) : PStatus → List FrameSub → List (Nat × SinkEv)
  | .rejected, _ :: rest => runQueue t .rejected rest
  | _, [] => []
  | .fulfilled, fs :: rest =>
    (t, .startWrite fs.frame) ::
      (t + fs.latency, .settle fs.frame fs.outcome) ::
        runQueue (t + fs.latency) (linkStatus fs.outcome) rest

/-- Total latency of the first `i` submissions: the time at which the
`i`-th write starts. -/
def preLat (q : List FrameSub) (i : Nat) : Nat :=
  ((q.take i).map (·.latency)).sum

/-- The frame of a start-of-write event, if any. -/
def startFrameOf (e : Nat × SinkEv) : Option (List Nat) :=
  match e.2 with
  | .startWrite f => some f
  | _ => none

theorem runQueue_filterMap (q : List FrameSub) :
    ∀ t, (runQueue t .fulfilled q).filterMap startFrameOf = q.map (·.frame) := by
  induction q with
  | nil => intro t; rfl
  | cons fs rest ih =>
    intro t
    simp only [runQueue, List.filterMap_cons, startFrameOf, linkStatus]
    exact congrArg _ (ih (t + fs.latency))

theorem runQueue_get (q : List FrameSub) :
    ∀ t i fs, q[i]? = some fs →
      (runQueue t .fulfilled q)[2 * i]? =
        some (t + preLat q i, .startWrite fs.frame) ∧
      (runQueue t .fulfilled q)[2 * i + 1]? =
        some (t + preLat q i + fs.latency, .settle fs.frame fs.outcome) := by
  induction q with
  | nil => intro t i fs h; simp at h
  | cons fs0 rest ih =>
    intro t i fs h
    cases i with
    | zero =>
      simp only [List.getElem?_cons_zero, Option.some.injEq] at h
      subst h
      simp [runQueue, preLat]
    | succ j =>
      simp only [List.getElem?_cons_succ] at h
      have hj := ih (t + fs0.latency) j fs h
      have h2 : 2 * (j + 1) = 2 * j + 1 + 1 := by ring
      have h3 : preLat (fs0 :: rest) (j + 1) = fs0.latency + preLat rest j := by
        simp [preLat, List.take_succ_cons]
      rw [h2]
      simp only [runQueue, linkStatus, List.getElem?_cons_succ]
      constructor
      · rw [hj.1, h3]
        ring_nf
      · rw [hj.2, h3]
        ring_nf

/-- Claim C1: frames F1..Fn enqueued on the playback queue are submitted to
the playback collaborator in exactly the enqueue order, whatever each
submission's latency and outcome; the `i+1`-st submission starts exactly at
the completion time of the `i`-th (and strictly after it in event order);
and a rejected submission does not prevent the next one (every enqueued
frame is submitted). -/
theorem playbackQueue_in_order (q : List FrameSub) :
    (runQueue 0 .fulfilled q).filterMap startFrameOf = q.map (·.frame) ∧
    (∀ i fs, q[i]? = some fs →
      (runQueue 0 .fulfilled q)[2 * i]? =
        some (preLat q i, .startWrite fs.frame) ∧
      (runQueue 0 .fulfilled q)[2 * i + 1]? =
        some (preLat q i + fs.latency, .settle fs.frame fs.outcome) ∧
      preLat q (i + 1) = preLat q i + fs.latency) := by
  refine ⟨runQueue_filterMap q 0, fun i fs h => ?_⟩
  have hg := runQueue_get q 0 i fs h
  refine ⟨by simpa using hg.1, by simpa using hg.2, ?_⟩
  have : q.take (i + 1) = q.take i ++ [fs] := by
    rw [List.take_succ, h]
    rfl
  simp [preLat, this]

/-- Witness for `playbackQueue_in_order`: three frames where the middle
submission is slow and rejects; the third frame is still submitted, in
order, starting exactly when the second settles. -/
theorem playbackQueue_in_order_witness :
    ([⟨[1], 1, .ok⟩, ⟨[2], 7, .err⟩, ⟨[3], 2, .ok⟩] :
        List FrameSub)[1]? = some ⟨[2], 7, .err⟩ ∧
    (runQueue 0 .fulfilled
        [⟨[1], 1, .ok⟩, ⟨[2], 7, .err⟩, ⟨[3], 2, .ok⟩]).filterMap
      startFrameOf = [[1], [2], [3]] ∧
    (runQueue 0 .fulfilled
        [⟨[1], 1, .ok⟩, ⟨[2], 7, .err⟩, ⟨[3], 2, .ok⟩])[2 * 1]? =
      some (preLat [⟨[1], 1, .ok⟩, ⟨[2], 7, .err⟩, ⟨[3], 2, .ok⟩] 1,
        .startWrite [2]) := by
  refine ⟨by rfl, ?_, ?_⟩
  · exact (playbackQueue_in_order _).1
  · exact ((playbackQueue_in_order _).2 1 ⟨[2], 7, .err⟩ (by rfl)).1

/-! ### Session state machine (`class StormeeServiceRN`, source lines
215-623)

Stateful code becomes explicit state passing: each handler or public method
maps a state to a new state plus the ordered list of externally observable
actions it performs (messages sent on the socket, events surfaced to the
UI, native audio calls, queue operations).  The playback promise chain is
the `playbackQueue` list of pending tasks; a `drain` event completes the
head task (the asynchronous continuation running later on the event
loop). -/

inductive StreamingState : Type where
  | IDLE : StreamingState
  | CONNECTING : StreamingState
  | CONNECTED : StreamingState
  | STREAMING : StreamingState
  | RECONNECTING : StreamingState
  | ERROR : StreamingState
deriving DecidableEq, Repr

/-- A task pending on the playback promise chain. -/
inductive PTask : Type where
  | writeFrame (b : List Nat) : PTask
  | processAccumulated : PTask
  | endCleanup : PTask
deriving DecidableEq, Repr

/-- The fields of the service object (source lines 216-247). -/
structure Svc : Type where
  socketExists : Bool
  isConnected : Bool
  st : StreamingState
  reconnectAttempts : Nat
  isUserStopped : Bool
  pendingSessionId : String
  chunkCounter : Nat
  currentResumptionToken : List Nat
  lastRequestPayload : Option String
  lastRequestId : String
  waitingForInitialResponse : Bool
  timerArmed : Bool
  playbackQueue : List PTask
  currentTranscription : List Nat
deriving Repr

/-- Field initializers of the class (source lines 216-247). -/
def initSvc : Svc :=
  { socketExists := false, isConnected := false, st := .IDLE,
    reconnectAttempts := 0, isUserStopped := false, pendingSessionId := "",
    chunkCounter := 0, currentResumptionToken := [],
    lastRequestPayload := none, lastRequestId := "",
    waitingForInitialResponse := false, timerArmed := false,
    playbackQueue := [], currentTranscription := [] }

/-- `maxReconnectAttempts` (source line 223, never reassigned). -/
def maxReconnectAttempts : Nat := 5

/-- Outbound JSON control messages (source §_sendJSON call sites). -/
inductive OutMsg : Type where
  | endCurrentQueryStream : OutMsg
  | ack (tok : List Nat) : OutMsg
  | ping : OutMsg
  | query (requestId : String) (payload : String) (resumptionToken : List Nat) : OutMsg
deriving DecidableEq, Repr

/-- Externally observable actions, in program order. -/
inductive Act : Type where
  | sendJSON (m : OutMsg) : Act
  | connectEvent : Act
  | disconnectEvent : Act
  | errorEvent : Act
  | streamStartEvent : Act
  | streamEndEvent : Act
  | transcriptionEvent (text : List Nat) (chunk : Nat) : Act
  | headerMessageEvent (v : Jv) : Act
  | chunkProcessedEvent (v : Jv) : Act
  | audioChunkEvent (b : List Nat) (chunk : Nat) : Act
  | enqueueFrame (b : List Nat) : Act
  | writeFrame (b : List Nat) : Act
  | processAccumulatedAudio : Act
  | stopPlaybackCall : Act
  | resetAudioCall : Act
  | historyAddAssistant (text : List Nat) : Act
  | setThinkingFalse : Act
  | reconnectingEvent (n : Nat) : Act
  | reconnectedEvent : Act
  | reconnectFailedEvent : Act
  | scheduleReconnect : Act
deriving Repr

/-- `_sendJSON` (source lines 606-609): sends only when a socket exists and
the connection is up; failures are swallowed. -/
def sendJSONActs (s : Svc) (m : OutMsg) : List Act :=
  if s.socketExists && s.isConnected then [.sendJSON m] else []

/-- `_resetInactivityTimer` (source lines 611-615): while awaiting a
response, every inbound message re-arms the 10-second timer. -/
def resetInactivityTimer (s : Svc) : Svc :=
  if s.waitingForInitialResponse then { s with timerArmed := true } else s

/-- JS truthiness of a decoded value. -/
def truthy : Jv → Bool
  | .undef => false
  | .null => false
  | .bool b => b
  | .num n => n != 0
  | .str s => !s.isEmpty
  | _ => true

/-- JS index read `v[i]` on the decoded envelope (`parsed.value[0]`,
`parsed.value[1]`): array index, object property `String(i)`, or a
one-byte string for string receivers (exact for ASCII); `undefined`
otherwise. -/
def jsIndex : Jv → Nat → Option Jv
  | .arr l, i => l[i]?
  | .obj fs, i => lookupJs fs (natDigits i)
  | .str s, i => if h : i < s.length then some (.str [s.get ⟨i, h⟩]) else none
  | _, _ => none

/-- JS property read `v.name` (named keys exist only on objects here). -/
def jsProp : Jv → List Nat → Option Jv
  | .obj fs, k => lookupJs fs k
  | _, _ => none

/-- `Buffer.from(tokenId).toString("utf8")` on a non-string token
(source lines 502-504): defined for binary views, numeric arrays, and
array-likes; anything else makes `Buffer.from` throw (`none`). -/
def jsTokenStr : Jv → Option (List Nat)
  | .str s => some s
  | .u8 b => some b
  | .view b => some b
  | .arr l => some (l.map toByte)
  | .obj fs =>
    match lookupJs fs lengthKey with
    | some (.num L) =>
      some ((List.range L.toNat).map
        (fun i => toByte ((lookupJs fs (natDigits i)).getD .undef)))
    | _ => none
  | _ => none

/-- ASCII bytes of `"transcription"`. -/
def transcriptionKey : List Nat :=
  [116, 114, 97, 110, 115, 99, 114, 105, 112, 116, 105, 111, 110]

/-- ASCII bytes of `"header_message"`. -/
def headerMessageKey : List Nat :=
  [104, 101, 97, 100, 101, 114, 95, 109, 101, 115, 115, 97, 103, 101]

/-- ASCII bytes of `"audio_data"`. -/
def audioDataKey : List Nat := [97, 117, 100, 105, 111, 95, 100, 97, 116, 97]

/-- ASCII bytes of `"isEnd"`. -/
def isEndKey : List Nat := [105, 115, 69, 110, 100]

/-- ASCII bytes of `"<cognitive"`. -/
def cognitiveTag : List Nat := [60, 99, 111, 103, 110, 105, 116, 105, 118, 101]

/-- Substring containment (`String.prototype.includes`). -/
def containsSub (hay needle : List Nat) : Bool :=
  (List.range (hay.length + 1)).any (fun i => needle.isPrefixOf (hay.drop i))

/-- `String.prototype.trim` on ASCII whitespace. -/
def trimBytes (s : List Nat) : List Nat :=
  let ws := fun b => b == 32 || b == 9 || b == 10 || b == 13
  ((s.dropWhile ws).reverse.dropWhile ws).reverse

/-- Lines 518-560 of `_handleMessage`: dispatch `header_message`,
`audio_data` (one enqueue per extracted frame, in order) and `isEnd`
(push the flush and cleanup continuations onto the playback chain), then
surface `onChunkProcessed`. -/
def afterTranscription (s : Svc) (acc : List Act) (co : Jv) : Svc × List Act :=
  let acc :=
    match jsProp co headerMessageKey with
    | some hv => if truthy hv then acc ++ [Act.headerMessageEvent hv] else acc
    | none => acc
  let sa :=
    match jsProp co audioDataKey with
    | some av =>
      if truthy av then
        let frames := extractAllBytes av
        if frames.length > 0 then
          ({ s with playbackQueue := s.playbackQueue ++ frames.map PTask.writeFrame },
           acc ++ frames.flatMap
             (fun f => [Act.enqueueFrame f, Act.audioChunkEvent f s.chunkCounter]))
        else (s, acc)
      else (s, acc)
    | none => (s, acc)
  let se :=
    match jsProp co isEndKey with
    | some ev =>
      if truthy ev then
        let hist :=
          if (trimBytes sa.1.currentTranscription).isEmpty then ([] : List Act)
          else [Act.historyAddAssistant (trimBytes sa.1.currentTranscription)]
        ({ sa.1 with playbackQueue :=
            sa.1.playbackQueue ++ [PTask.processAccumulated, PTask.endCleanup] },
         sa.2 ++ hist ++ [Act.setThinkingFalse])
      else sa
    | none => sa
  (se.1, se.2 ++ [Act.chunkProcessedEvent co])

/-- Lines 509-516 of `_handleMessage`: the transcription field — a truthy
string fires the transcription handler unless it looks like a raw
structured payload or carries the internal reasoning tag; a truthy
non-string makes `tx.startsWith` throw, caught by the outer handler
(`onError`), aborting the rest of the dispatch. -/
def afterToken (s : Svc) (acc : List Act) (co : Jv) : Svc × List Act :=
  match jsProp co transcriptionKey with
  | some tv =>
    if truthy tv then
      match tv with
      | .str t =>
        if !(t.head? == some 123) && !containsSub t cognitiveTag then
          afterTranscription { s with currentTranscription := t }
            (acc ++ [Act.transcriptionEvent t s.chunkCounter]) co
        else afterTranscription s acc co
      | _ => (s, acc ++ [Act.errorEvent])
    else afterTranscription s acc co
  | none => afterTranscription s acc co

/-- The binary branch of `_handleMessage` (source lines 479-560): skip when
user-stopped or empty; re-arm the inactivity timer; decode; drop the
message on a decode failure; require a truthy second element; then ack the
token (updating the stored resumption token first) and dispatch the payload
fields. -/
def handleBinary (s0 : Svc) (data : List Nat) : Svc × List Act :=
  if s0.isUserStopped then (s0, [])
  else if data.isEmpty then (s0, [])
  else
    let s1 := resetInactivityTimer s0
    match parseMsgpack data with
    | .error _ => (s1, [])
    | .ok (v, _) =>
      let chunkObject := (jsIndex v 1).getD .undef
      if !truthy chunkObject then (s1, [])
      else
        let s2 := { s1 with chunkCounter := s1.chunkCounter + 1 }
        match jsIndex v 0 with
        | some tid =>
          if truthy tid then
            match jsTokenStr tid with
            | some tok =>
              let s3 := { s2 with currentResumptionToken := tok }
              let acc := if tok.isEmpty then [] else sendJSONActs s3 (.ack tok)
              afterToken s3 acc chunkObject
            | none => (s2, [Act.errorEvent])
          else afterToken s2 [] chunkObject
        | none => afterToken s2 [] chunkObject

/-- Parsed JSON control messages seen on the string branch of
`_handleMessage` (source lines 562-568) and `_processJSON` (574-591);
`other` covers unparsable text and unrecognized types, which are
ignored. -/
inductive JMsg : Type where
  | ackEcho : JMsg
  | streamStarted : JMsg
  | streamStopped : JMsg
  | serverError : JMsg
  | other : JMsg
deriving DecidableEq, Repr

/-- Transport and scheduler events delivered to the service. `tick10` is
the 10-second inactivity timeout firing; `drain` runs the next pending
continuation of the playback promise chain. -/
inductive SvcEv : Type where
  | evOpen : SvcEv
  | evClose : SvcEv
  | evError : SvcEv
  | msgBinary (data : List Nat) : SvcEv
  | msgText (j : JMsg) : SvcEv
  | tick10 : SvcEv
  | drain : SvcEv
deriving Repr

/-- `_resumeAfterReconnect` (source lines 451-473): with a saved request,
re-send it verbatim (same `request_id`, saved payload, current resumption
token) and restart the turn. -/
def resumeAfterReconnect (s : Svc) (acc : List Act) : Svc × List Act :=
  match s.lastRequestPayload with
  | none => (s, acc)
  | some payload =>
    let s1 := { s with chunkCounter := 0, playbackQueue := [], st := .STREAMING, isUserStopped := false }
    let acc := acc ++
      sendJSONActs s1 (.query s1.lastRequestId payload s1.currentResumptionToken)
    ({ s1 with waitingForInitialResponse := true, timerArmed := true },
     acc ++ [Act.reconnectedEvent])

/-- `socket.onopen` (source lines 403-414). -/
def onOpen (s : Svc) : Svc × List Act :=
  let s1 := { s with isConnected := true, st := .CONNECTED, reconnectAttempts := 0 }
  if s1.lastRequestPayload.isSome && !s1.isUserStopped then
    resumeAfterReconnect s1 [Act.connectEvent]
  else (s1, [Act.connectEvent])

/-- `socket.onclose` (source lines 425-443): reconnect with backoff unless
the user stopped or the attempt budget is spent. -/
def onClose (s : Svc) : Svc × List Act :=
  let s1 := { s with isConnected := false, timerArmed := false }
  if !s1.isUserStopped && s1.reconnectAttempts < maxReconnectAttempts then
    ({ s1 with reconnectAttempts := s1.reconnectAttempts + 1, st := .RECONNECTING },
     [Act.reconnectingEvent (s1.reconnectAttempts + 1), Act.scheduleReconnect])
  else if maxReconnectAttempts ≤ s1.reconnectAttempts then
    ({ s1 with st := .IDLE }, [Act.reconnectFailedEvent])
  else
    ({ s1 with st := .IDLE }, [Act.disconnectEvent])

/-- `socket.onerror` (source lines 416-423). -/
def onError (s : Svc) : Svc × List Act :=
  ({ s with st := .ERROR }, [Act.errorEvent])

/-- String branch of `_handleMessage` plus `_processJSON` (source lines
562-591): reset the inactivity timer, then dispatch by message type. -/
def onText (s : Svc) (j : JMsg) : Svc × List Act :=
  let s1 := resetInactivityTimer s
  match j with
  | .ackEcho => (s1, [])
  | .streamStarted =>
    ({ s1 with chunkCounter := 0, playbackQueue := [] }, [Act.streamStartEvent])
  | .streamStopped => ({ s1 with st := .CONNECTED }, [Act.streamEndEvent])
  | .serverError => ({ s1 with st := .ERROR }, [Act.errorEvent])
  | .other => (s1, [])

/-- `_startInactivityTimer`'s callback (source lines 379-395): when the
armed timer fires while still connected and awaiting the turn's responses,
send a keep-alive ping and re-arm. -/
def onTick (s : Svc) : Svc × List Act :=
  if s.timerArmed then
    let s1 := { s with timerArmed := false }
    if s1.isConnected && s1.waitingForInitialResponse then
      ({ s1 with timerArmed := true }, sendJSONActs s1 .ping)
    else (s1, [])
  else (s, [])

/-- Completion of the head continuation on the playback chain: a queued
frame write (source lines 593-599), the accumulated-audio flush, or the
end-of-turn cleanup (source lines 536-556). -/
def onDrain (s : Svc) : Svc × List Act :=
  match s.playbackQueue with
  | [] => (s, [])
  | task :: rest =>
    let s1 := { s with playbackQueue := rest }
    match task with
    | .writeFrame b => (s1, [Act.writeFrame b])
    | .processAccumulated => (s1, [Act.processAccumulatedAudio])
    | .endCleanup =>
      let s2 := { s1 with st := .CONNECTED, waitingForInitialResponse := false, timerArmed := false, lastRequestPayload := none, lastRequestId := "", currentResumptionToken := [] }
      (s2, sendJSONActs s2 .endCurrentQueryStream ++ [Act.streamEndEvent])

/-- One event of the service's event loop. -/
def step (s : Svc) : SvcEv → Svc × List Act
  | .evOpen => onOpen s
  | .evClose => onClose s
  | .evError => onError s
  | .msgBinary data => handleBinary s data
  | .msgText j => onText s j
  | .tick10 => onTick s
  | .drain => onDrain s

/-- Run a list of events, concatenating the emitted actions. -/
def run (s : Svc) : List SvcEv → Svc × List Act
  | [] => (s, [])
  | e :: evs =>
    let p := step s e
    let q := run p.1 evs
    (q.1, p.2 ++ q.2)

/-- Run a list of events, keeping each event's actions separate. -/
def runTrace (s : Svc) : List SvcEv → List (List Act)
  | [] => []
  | e :: evs => (step s e).2 :: runTrace (step s e).1 evs

/-- `stopStreaming` (source lines 350-365): mark the user stop, disarm the
timer, clear the resumption token and the saved request, tell the server,
return to `CONNECTED`, surface stream end, stop playback, and drop the
pending playback chain. -/
def stopStreaming (s : Svc) : Svc × List Act :=
  let s1 := { s with isUserStopped := true, waitingForInitialResponse := false, timerArmed := false, currentResumptionToken := [], lastRequestPayload := none, lastRequestId := "" }
  let acts := sendJSONActs s1 .endCurrentQueryStream
  ({ s1 with st := .CONNECTED, playbackQueue := [] },
   acts ++ [Act.streamEndEvent, Act.stopPlaybackCall])

/-- `sendInitWithQuery` (source lines 281-348): requires an open
connection; ends any previous stream, resets per-turn state, reuses the
previous `request_id` when resuming, saves the payload, consumes the
resumption token, sends the query, and arms the inactivity timer.
`freshId` stands for the generated `req_${Date.now()}_...` identifier. -/
def sendInitWithQuery (s : Svc) (userQuery freshId : String) :
    Option (Svc × List Act) :=
  if !(s.socketExists && s.isConnected) then none
  else
    let acc := sendJSONActs s .endCurrentQueryStream
    let s1 := { s with isUserStopped := false, chunkCounter := 0, playbackQueue := [], waitingForInitialResponse := false, timerArmed := false, currentTranscription := [] }
    let acc := acc ++ [Act.transcriptionEvent [] 0, Act.resetAudioCall]
    let isResume := !s1.currentResumptionToken.isEmpty
    let requestId :=
      if isResume && s1.lastRequestId != "" then s1.lastRequestId else freshId
    let s2 := { s1 with lastRequestId := requestId, lastRequestPayload := some userQuery }
    let payloadToken := s2.currentResumptionToken
    let s3 := { s2 with currentResumptionToken := [], st := .STREAMING }
    let acc := acc ++ sendJSONActs s3 (.query requestId userQuery payloadToken)
    some ({ s3 with waitingForInitialResponse := true, timerArmed := true },
      acc ++ [Act.streamStartEvent])

/-- Raw socket-lifecycle operations performed by `connect`/`_openSocket`. -/
inductive SockOp : Type where
  | closeOld : SockOp
  | detachHandlers : SockOp
  | newSocket : SockOp
  | attachHandlers : SockOp
deriving DecidableEq, Repr

/-- `_openSocket` (source lines 397-401 and 403-449): constructs the new
`WebSocket` and installs `onopen`/`onmessage`/`onerror`/`onclose` on it. -/
def openSocketOps (s : Svc) : Svc × List SockOp :=
  ({ s with socketExists := true }, [SockOp.newSocket, SockOp.attachHandlers])

/-- `connect` (source lines 262-279): short-circuit when already connected
to the same session; otherwise record the session, enter `CONNECTING`,
close any existing socket (its handlers are never removed), and open a new
one. -/
def connectOps (s : Svc) (sessionId : String) : Svc × List SockOp :=
  if s.isConnected && s.pendingSessionId == sessionId && s.socketExists then
    (s, [])
  else
    let s1 := { s with pendingSessionId := sessionId, st := .CONNECTING, isUserStopped := false, reconnectAttempts := 0 }
    let p :=
      if s1.socketExists then
        ({ s1 with socketExists := false }, [SockOp.closeOld])
      else (s1, ([] : List SockOp))
    let q := openSocketOps p.1
    (q.1, p.2 ++ q.2)

/-- A connected idle service (fresh successful `connect`). -/
def svcConnected : Svc :=
  { initSvc with socketExists := true, isConnected := true, st := .CONNECTED }

/-- C5: `connect()` over a live socket closes the old socket and then
constructs the new `WebSocket`, but never detaches the old socket's
`onopen`/`onmessage`/`onerror`/`onclose` handlers: the socket-lifecycle
trace of `connect` on a connected service with a different session id is
exactly close-then-create with no detach step, and `_openSocket` itself
only creates the socket and attaches the new handlers.  A late callback of
the dying socket can therefore still fire after the new connection exists,
refuting the claim that all four handlers are detached first. -/
theorem connect_replaces_socket_without_detach :
    (connectOps { svcConnected with pendingSessionId := "session-A" } "session-B").2
      = [SockOp.closeOld, SockOp.newSocket, SockOp.attachHandlers] ∧
    SockOp.detachHandlers ∉
      (connectOps { svcConnected with pendingSessionId := "session-A" } "session-B").2 ∧
    (openSocketOps svcConnected).2 = [SockOp.newSocket, SockOp.attachHandlers] ∧
    SockOp.detachHandlers ∉ (openSocketOps svcConnected).2 := by
  have h : (connectOps { svcConnected with pendingSessionId := "session-A" } "session-B").2
      = [SockOp.closeOld, SockOp.newSocket, SockOp.attachHandlers] := by
    simp [connectOps, openSocketOps, svcConnected, initSvc]
  refine ⟨h, ?_, rfl, ?_⟩
  · rw [h]; decide
  · rw [show (openSocketOps svcConnected).2 = [SockOp.newSocket, SockOp.attachHandlers] from rfl]
    decide

/-- A service mid-turn: query sent, awaiting responses, timer armed. -/
def svcAwaiting : Svc :=
  ((sendInitWithQuery svcConnected "hello" "req-1").getD (initSvc, [])).1

/-- C7 (counterexample): from the state right after `sendInitWithQuery`, an
inactivity timeout fires a ping; a response chunk for the query then
arrives (and is acked); yet because `_handleMessage` re-arms the timer on
every inbound message while `waitingForInitialResponse` is never cleared
before end-of-turn, the next timeout fires a second ping — pings do not
stop once a response chunk has arrived. -/
theorem ping_fires_after_chunk_arrived :
    runTrace svcAwaiting
      [.tick10, .msgBinary [0x92, 0xa1, 97, 0x80], .tick10]
    = [[Act.sendJSON .ping],
       [Act.sendJSON (.ack [97]), Act.chunkProcessedEvent (.obj [])],
       [Act.sendJSON .ping]] := by
  rfl

/-- C7 (amended): while the service is connected, awaiting a turn's
responses, and the inactivity timer is armed, a 10-second timeout emits
exactly one ping and re-arms the timer; `waitingForInitialResponse` stays
set, so the keepalive continues for the whole turn — including after
response chunks have arrived — rather than stopping at the first chunk. -/
theorem inactivity_ping_once_per_gap (s : Svc)
    (harm : s.timerArmed = true) (hconn : s.isConnected = true)
    (hsock : s.socketExists = true)
    (hwait : s.waitingForInitialResponse = true) :
    (step s .tick10).2 = [Act.sendJSON .ping] ∧
    (step s .tick10).1.timerArmed = true ∧
    (step s .tick10).1.waitingForInitialResponse = true := by
  simp [step, onTick, harm, hconn, hwait, hsock, sendJSONActs]

/-- The keepalive theorem at the concrete mid-turn state. -/
theorem inactivity_ping_once_per_gap_witness :
    (step svcAwaiting .tick10).2 = [Act.sendJSON .ping] ∧
    (step svcAwaiting .tick10).1.timerArmed = true ∧
    (step svcAwaiting .tick10).1.waitingForInitialResponse = true :=
  inactivity_ping_once_per_gap svcAwaiting rfl rfl rfl rfl

/-- Actions compatible with a user-stopped session: anything except
scheduling a reconnect or (re)sending a query payload. -/
def benignAct : Act → Bool
  | .scheduleReconnect => false
  | .sendJSON (.query _ _ _) => false
  | _ => true

/-- The user-stopped invariant: the stop flag is set and no request
payload is saved for resumption. -/
def stoppedInv (s : Svc) : Prop :=
  s.isUserStopped = true ∧ s.lastRequestPayload = none

/-- Every event preserves the user-stopped invariant and emits neither a
reconnect scheduling nor a query resend. -/
theorem step_stopped (s : Svc) (e : SvcEv) (h : stoppedInv s) :
    stoppedInv (step s e).1 ∧ (step s e).2.all benignAct = true := by
  obtain ⟨h1, h2⟩ := h
  cases e with
  | evOpen => simp [step, onOpen, resumeAfterReconnect, h1, h2, stoppedInv, benignAct]
  | evClose =>
    simp only [step, onClose, h1, Bool.not_true, Bool.false_and,
      Bool.false_eq_true, if_false]
    split_ifs <;> simp [stoppedInv, h1, h2, benignAct]
  | evError => simp [step, onError, stoppedInv, h1, h2, benignAct]
  | msgBinary data => simp [step, handleBinary, h1, stoppedInv, h2]
  | msgText j =>
    cases j <;>
      simp [step, onText, resetInactivityTimer, stoppedInv, h1, h2, benignAct] <;>
      split_ifs <;> simp [stoppedInv, h1, h2]
  | tick10 =>
    simp only [step, onTick, sendJSONActs]
    split_ifs <;> simp [stoppedInv, h1, h2, benignAct]
  | drain =>
    rcases hq : s.playbackQueue with _ | ⟨t, rest⟩
    · simp [step, onDrain, hq, stoppedInv, h1, h2]
    · cases t <;>
        simp only [step, onDrain, hq, sendJSONActs] <;>
        first
        | (split_ifs <;> simp [stoppedInv, h1, h2, benignAct])
        | simp [stoppedInv, h1, h2, benignAct]

/-- Under the user-stopped invariant, no execution schedules a reconnect
or resends a query. -/
theorem run_stopped (s : Svc) (evs : List SvcEv) (h : stoppedInv s) :
    (run s evs).2.all benignAct = true := by
  induction evs generalizing s with
  | nil => rfl
  | cons e evs ih =>
    have hs := step_stopped s e h
    simp [run, List.all_append, hs.2, ih _ hs.1]

/-- C6: `stopStreaming` clears the resumption token, the saved request
payload and its id, sends the end-of-stream control message, returns the
state machine to `CONNECTED`, and surfaces the stream-end event; and from
the resulting state, any subsequent execution — involuntary transport
closes included — never schedules a reconnect and never resends the
previous request. -/
theorem stopStreaming_clears_and_blocks_resend (s : Svc) (evs : List SvcEv)
    (hsock : s.socketExists = true) (hconn : s.isConnected = true) :
    (stopStreaming s).1.currentResumptionToken = [] ∧
    (stopStreaming s).1.lastRequestPayload = none ∧
    (stopStreaming s).1.lastRequestId = "" ∧
    (stopStreaming s).1.st = StreamingState.CONNECTED ∧
    (stopStreaming s).2 = [Act.sendJSON OutMsg.endCurrentQueryStream,
      Act.streamEndEvent, Act.stopPlaybackCall] ∧
    (run (stopStreaming s).1 evs).2.all benignAct = true := by
  refine ⟨rfl, rfl, rfl, rfl, ?_, ?_⟩
  · simp [stopStreaming, sendJSONActs, hsock, hconn]
  · exact run_stopped _ evs ⟨rfl, rfl⟩

/-- A service mid-turn with a saved request and resumption token. -/
def svcMidTurn : Svc :=
  { svcAwaiting with currentResumptionToken := [97] }

/-- The stop theorem at a concrete mid-turn state, run through a close,
a reopen, a timeout, and a drain. -/
theorem stopStreaming_clears_and_blocks_resend_witness :
    (stopStreaming svcMidTurn).1.currentResumptionToken = [] ∧
    (stopStreaming svcMidTurn).1.lastRequestPayload = none ∧
    (stopStreaming svcMidTurn).1.lastRequestId = "" ∧
    (stopStreaming svcMidTurn).1.st = StreamingState.CONNECTED ∧
    (stopStreaming svcMidTurn).2 = [Act.sendJSON OutMsg.endCurrentQueryStream,
      Act.streamEndEvent, Act.stopPlaybackCall] ∧
    (run (stopStreaming svcMidTurn).1
      [.evClose, .evOpen, .tick10, .drain]).2.all benignAct = true :=
  stopStreaming_clears_and_blocks_resend svcMidTurn
    [.evClose, .evOpen, .tick10, .drain] rfl rfl

/-- Whether an action submits a frame to the playback collaborator. -/
def isWriteAct : Act → Bool
  | .writeFrame _ => true
  | _ => false

/-- Enqueue/surface action pairs for audio frames are not submissions. -/
theorem flatMap_enqueue_no_write (frames : List (List Nat)) (n : Nat) :
    (frames.flatMap
      (fun f => [Act.enqueueFrame f, Act.audioChunkEvent f n])).all
      (fun x => !isWriteAct x) = true := by
  induction frames with
  | nil => rfl
  | cons f fs ih => simp_all [isWriteAct]

/-- The field dispatch never submits frames itself: it only enqueues
continuations, so an accumulator free of submissions stays free of them. -/
theorem afterTranscription_no_write (s : Svc) (acc : List Act) (co : Jv)
    (h : acc.all (fun x => !isWriteAct x) = true) :
    (afterTranscription s acc co).2.all (fun x => !isWriteAct x) = true := by
  unfold afterTranscription
  rcases h1 : jsProp co headerMessageKey with _ | hv <;>
  rcases h2 : jsProp co audioDataKey with _ | av <;>
  rcases h3 : jsProp co isEndKey with _ | ev <;>
  simp only [h1, h2, h3] <;> try split_ifs
  all_goals
    simp [List.all_append, flatMap_enqueue_no_write, h, isWriteAct]
  all_goals
    intro x hx
    have hx2 := List.all_eq_true.mp h x hx
    simpa [isWriteAct] using hx2

/-- The transcription dispatch never submits frames. -/
theorem afterToken_no_write (s : Svc) (acc : List Act) (co : Jv)
    (h : acc.all (fun x => !isWriteAct x) = true) :
    (afterToken s acc co).2.all (fun x => !isWriteAct x) = true := by
  unfold afterToken
  rcases h1 : jsProp co transcriptionKey with _ | tv
  · simp only [h1]
    exact afterTranscription_no_write s acc co h
  · simp only [h1]
    split_ifs with ht
    · rcases tv with _ | _ | b | n | t | u | w | l | fs | f3 | f6 <;>
      dsimp only <;>
      first
      | (split_ifs <;>
          (apply afterTranscription_no_write <;>
            simp [List.all_append, h, isWriteAct]))
      | (apply afterTranscription_no_write <;>
          simp [List.all_append, h, isWriteAct])
      | simp [List.all_append, h, isWriteAct]
      all_goals
        intro x hx
        have hx2 := List.all_eq_true.mp h x hx
        simpa [isWriteAct] using hx2
    · exact afterTranscription_no_write s acc co h

/-- The field dispatch only appends actions: a nonempty accumulator keeps
its head action. -/
theorem afterTranscription_head (s : Svc) (a : Act) (acc : List Act)
    (co : Jv) :
    (afterTranscription s (a :: acc) co).2.head? = some a := by
  unfold afterTranscription
  rcases h1 : jsProp co headerMessageKey with _ | hv <;>
  rcases h2 : jsProp co audioDataKey with _ | av <;>
  rcases h3 : jsProp co isEndKey with _ | ev <;>
  simp only [h1, h2, h3] <;> try split_ifs
  all_goals simp

/-- The transcription dispatch only appends actions: a nonempty
accumulator keeps its head action. -/
theorem afterToken_head (s : Svc) (a : Act) (acc : List Act) (co : Jv) :
    (afterToken s (a :: acc) co).2.head? = some a := by
  unfold afterToken
  rcases h1 : jsProp co transcriptionKey with _ | tv
  · simp only [h1]
    exact afterTranscription_head s a acc co
  · simp only [h1]
    split_ifs with ht
    · rcases tv with _ | _ | b | n | t | u | w | l | fs | f3 | f6 <;>
      dsimp only <;>
      first
      | (split_ifs <;>
          first
          | (rw [List.cons_append]; exact afterTranscription_head _ a _ co)
          | exact afterTranscription_head _ a acc co)
      | exact afterTranscription_head _ a acc co
      | simp
    · exact afterTranscription_head s a acc co

/-- The field dispatch does not touch the stored resumption token. -/
theorem afterTranscription_token (s : Svc) (acc : List Act) (co : Jv) :
    (afterTranscription s acc co).1.currentResumptionToken
      = s.currentResumptionToken := by
  unfold afterTranscription
  rcases h1 : jsProp co headerMessageKey with _ | hv <;>
  rcases h2 : jsProp co audioDataKey with _ | av <;>
  rcases h3 : jsProp co isEndKey with _ | ev <;>
  simp only [h1, h2, h3] <;> try split_ifs
  all_goals rfl

/-- The transcription dispatch does not touch the stored resumption
token. -/
theorem afterToken_token (s : Svc) (acc : List Act) (co : Jv) :
    (afterToken s acc co).1.currentResumptionToken
      = s.currentResumptionToken := by
  unfold afterToken
  rcases h1 : jsProp co transcriptionKey with _ | tv
  · simp only [h1]
    exact afterTranscription_token s acc co
  · simp only [h1]
    split_ifs with ht
    · rcases tv with _ | _ | b | n | t | u | w | l | fs | f3 | f6 <;>
      dsimp only <;>
      first
      | (split_ifs <;> exact afterTranscription_token _ _ co)
      | exact afterTranscription_token _ _ co
      | rfl
    · exact afterTranscription_token s acc co

/-- C2: for an inbound binary message that decodes to an envelope whose
first element is a non-empty token string and whose second element is an
object, the handler stores the token as `currentResumptionToken`, its very
first action in the same turn is sending the `{ack: token}` message, and
no action of the turn submits a frame to the playback collaborator (audio
is only enqueued; submissions happen on later drains of the chain). -/
theorem ack_before_audio (s : Svc) (data rem tok : List Nat)
    (fs : List (List Nat × Jv)) (tail : List Jv)
    (hstop : s.isUserStopped = false) (hconn : s.isConnected = true)
    (hsock : s.socketExists = true)
    (hp : parseMsgpack data
      = Except.ok (Jv.arr (Jv.str tok :: Jv.obj fs :: tail), rem))
    (htok : tok ≠ []) :
    (handleBinary s data).1.currentResumptionToken = tok ∧
    (handleBinary s data).2.head? = some (Act.sendJSON (OutMsg.ack tok)) ∧
    (handleBinary s data).2.all (fun x => !isWriteAct x) = true := by
  have hne : data.isEmpty = false := by
    cases data with
    | nil =>
      rw [show parseMsgpack [] = Except.error PErr.oob from rfl] at hp
      cases hp
    | cons d ds => rfl
  have htok2 : tok.isEmpty = false := by
    cases tok with
    | nil => exact absurd rfl htok
    | cons a l => rfl
  unfold handleBinary
  rw [hstop, hne, hp]
  cases hw : s.waitingForInitialResponse <;>
    simp only [resetInactivityTimer, hw, jsIndex, List.getElem?_cons_succ,
      List.getElem?_cons_zero, Option.getD_some, truthy, htok2, jsTokenStr,
      sendJSONActs, hsock, hconn, Bool.false_eq_true, Bool.true_eq_false,
      Bool.not_true, Bool.not_false, Bool.and_self, if_false, if_true,
      eq_self_iff_true, ite_true, ite_false, List.isEmpty_eq_true,
      reduceCtorEq, if_neg] <;>
    refine ⟨?_, ?_, ?_⟩ <;>
    first
    | (rw [afterToken_token])
    | (exact afterToken_head _ _ _ _)
    | (apply afterToken_no_write; rfl)

/-- The ack-before-audio theorem at a concrete envelope
`[token "a", {}]`. -/
theorem ack_before_audio_witness :
    (handleBinary svcConnected
      [0x92, 0xa1, 97, 0x80]).1.currentResumptionToken = [97] ∧
    (handleBinary svcConnected [0x92, 0xa1, 97, 0x80]).2.head?
      = some (Act.sendJSON (OutMsg.ack [97])) ∧
    (handleBinary svcConnected [0x92, 0xa1, 97, 0x80]).2.all
      (fun x => !isWriteAct x) = true :=
  ack_before_audio svcConnected [0x92, 0xa1, 97, 0x80] [] [97] [] []
    rfl rfl rfl rfl (by simp)
